import Mathlib

/-!
Shallow embedding of the action-recording engine of the Giada loop machine
(`src/core/actions/actionRecorder.cpp`), together with theorems checking the
natural-language specification of that component against the code.

Conventions of the embedding:
* `Frame` is the C++ `int` frame type, embedded as `Int`.
* Float `ratio` arguments are embedded as exact rationals `ℚ`; the C++
  `static_cast<Frame>` on a nonnegative float product is truncation toward
  zero, embedded as `ratTrunc`.
* The committed action store `m_actions` (class `Actions`, whose translation
  unit is not part of the sources at hand) is modelled from the spec as a list
  of `Action` records plus the monotone id counter of `actionFactory`.
* Fallible operations (C++ assertion failures, `map::at` misses, null
  dereferences) return `Option`.
-/

namespace Giada

/-- MIDI status byte of a note-on event (`MidiEvent::CHANNEL_NOTE_ON`). -/
def CHANNEL_NOTE_ON : Nat := 0x90

/-- MIDI status byte of a note-off event (`MidiEvent::CHANNEL_NOTE_OFF`). -/
def CHANNEL_NOTE_OFF : Nat := 0x80

/-- MIDI status byte of a control-change event (`MidiEvent::CHANNEL_CC`). -/
def CHANNEL_CC : Nat := 0xB0

/-- Modelled from the spec: the maximum velocity/value constant
(`G_MAX_VELOCITY` from `core/const.h`, not among the sources at hand); the
baseline value carried by envelope boundary actions. Its exact value is
irrelevant to the claims. -/
def G_MAX_VELOCITY : Nat := 127

/-- Modelled from the spec: the fixed default action size
(`G_DEFAULT_ACTION_SIZE` from `core/const.h`, not among the sources at hand):
the default duration of a recorded note pair when `f2` is unspecified. -/
def G_DEFAULT_ACTION_SIZE : Int := 8192

/-- A 3-byte MIDI-style message: status kind, primary data byte (note number
or controller number), secondary data byte (velocity or value). -/
structure MidiEvent where
  status : Nat
  data1 : Nat
  data2 : Nat
deriving DecidableEq, Repr

/-- Constructor mirroring `MidiEvent::makeFrom3Bytes(status, data1, data2)`. -/
def MidiEvent.makeFrom3Bytes (status data1 data2 : Nat) : MidiEvent :=
  ⟨status, data1, data2⟩

/-- Accessor mirroring `MidiEvent::getStatus()`. -/
def MidiEvent.getStatus (e : MidiEvent) : Nat := e.status

/-- Accessor mirroring `MidiEvent::getNote()`. -/
def MidiEvent.getNote (e : MidiEvent) : Nat := e.data1

/-- A recorded action: id (0 reserved as absent), owning channel, frame
position, event payload, and logical sibling links (`0` = none). -/
structure Action where
  id : Nat
  channelId : Nat
  frame : Int
  event : MidiEvent
  prevId : Nat
  nextId : Nat
deriving DecidableEq, Repr

/-- Modelled from the spec: `actionFactory::makeAction` builds an action
record from raw data with empty sibling links. -/
def makeAction (id channelId : Nat) (frame : Int) (e : MidiEvent) : Action :=
  ⟨id, channelId, frame, e, 0, 0⟩

/-- The kind of a published state swap (`model::SwapType`); the claims only
distinguish the structural `HARD` kind. -/
inductive SwapType where
  | HARD
  | SOFT
deriving DecidableEq, Repr

/-- Channel record, reduced to the single field the recorder touches:
the `hasActions` summary flag. -/
structure Channel where
  id : Nat
  hasActions : Bool
deriving DecidableEq, Repr

/-- The recorder state: the committed action store (`m_actions`), the live
recording buffer (`m_liveActions`), the `actionFactory` id counter (the next
fresh id), the channels of the model, and the log of published swaps. -/
structure State where
  actions : List Action
  liveActions : List Action
  nextActionId : Nat
  channels : List Channel
  swaps : List SwapType
deriving DecidableEq, Repr

/-- Truncation toward zero of a rational, the behaviour of C++
`static_cast<int>` on a float value. -/
def ratTrunc (q : ℚ) : Int := if q < 0 then ⌈q⌉ else ⌊q⌋

/-- The per-frame transform of `ActionRecorder::updateBpm` (the lambda at
`actionRecorder.cpp:85-98`): rescale by `ratio` with C++ cast truncation, then
collapse onto a quantizer-aligned frame when the remainder
`quantizerStep % frame` is in `(0, 6]`.  `%` is C++ truncated remainder. -/
def updateBpmFrame (ratio : ℚ) (quantizerStep : Int) (old : Int) : Int :=
  let frame : Int := ratTrunc ((old : ℚ) * ratio)
  if frame ≠ 0 then
    let delta : Int := Int.tmod quantizerStep frame
    if delta > 0 ∧ delta ≤ 6 then frame + delta else frame
  else frame

/-- Modelled from the spec: `rescaleFrames(transform)` / `updateKeyFrames`
of the action store applies a pure frame→frame function to every stored
action. -/
def Actions.updateKeyFrames (as : List Action) (t : Int → Int) : List Action :=
  as.map fun a => { a with frame := t a.frame }

/-- `ActionRecorder::updateBpm(ratio, quantizerStep)`: early return when
`ratio == 1.0f`, else rescale every key frame through `updateBpmFrame`. -/
def updateBpm (st : State) (ratio : ℚ) (quantizerStep : Int) : State :=
  if ratio = 1 then st
  else { st with actions := Actions.updateKeyFrames st.actions (updateBpmFrame ratio quantizerStep) }

/-- The per-frame transform of `ActionRecorder::updateSamplerate`
(`actionRecorder.cpp:110`): `floorf(old * ratio)` with
`ratio = systemRate / (float)patchRate`. -/
def updateSamplerateFrame (systemRate patchRate : Int) (old : Int) : Int :=
  ⌊(old : ℚ) * ((systemRate : ℚ) / (patchRate : ℚ))⌋

/-- `ActionRecorder::updateSamplerate(systemRate, patchRate)`: early return
when the rates are equal, else rescale every key frame. -/
def updateSamplerate (st : State) (systemRate patchRate : Int) : State :=
  if systemRate = patchRate then st
  else { st with actions := Actions.updateKeyFrames st.actions (updateSamplerateFrame systemRate patchRate) }

/-- Modelled from the spec: lookup of a committed action by id (the store's
`findAction`; used to resolve `prevId`/`nextId` links, `0` resolving to
nothing). -/
def findAction (as : List Action) (id : Nat) : Option Action :=
  as.find? (fun a => a.id == id)

/-- Modelled from the spec: `relink(id, prevId, nextId)` / `updateSiblings`
rewrites the action's own sibling links and makes the named siblings point
back at it (so that a spliced-in node is linked from both neighbors). -/
def updateSiblingsL (as : List Action) (id prevId nextId : Nat) : List Action :=
  as.map fun a =>
    let a := if a.id = id then { a with prevId := prevId, nextId := nextId } else a
    let a := if prevId ≠ 0 ∧ a.id = prevId then { a with nextId := id } else a
    if nextId ≠ 0 ∧ a.id = nextId then { a with prevId := id } else a

/-- Modelled from the spec: `hasActions(channelId, type)` — whether the store
holds an action of the given channel and event status. -/
def Actions.hasActionsCT (as : List Action) (channelId type : Nat) : Bool :=
  as.any fun a => a.channelId == channelId && a.event.status == type

/-- Modelled from the spec: `hasActions(channelId)` — whether the store holds
any action of the given channel. -/
def Actions.hasActionsC (as : List Action) (channelId : Nat) : Bool :=
  as.any fun a => a.channelId == channelId

/-- Modelled from the spec: `clear(channelId, type)` removes every action of
the given channel and event status. -/
def Actions.clearActionsCT (as : List Action) (channelId type : Nat) : List Action :=
  as.filter fun a => !(a.channelId == channelId && a.event.status == type)

/-- Modelled from the spec: `delete(id)` removes the action with the given
id; silently a no-op when absent. -/
def Actions.deleteOne (as : List Action) (id : Nat) : List Action :=
  as.filter fun a => a.id != id

/-- Modelled from the spec: `closestAction(channelId, frame, type)` returns
the nearest action of that channel and status at or before the frame (the one
of greatest frame `≤ f`), or nothing when no such action exists. -/
def Actions.getClosestAction (as : List Action) (channelId : Nat) (f : Int) (type : Nat) : Option Action :=
  (as.filter fun a => a.channelId == channelId && a.event.status == type && decide (a.frame ≤ f)).argmax (·.frame)

/-- Helper: set the `hasActions` summary flag of one channel of the model. -/
def setChannelHasActions (chs : List Channel) (channelId : Nat) (v : Bool) : List Channel :=
  chs.map fun c => if c.id = channelId then { c with hasActions := v } else c

/-- `ActionRecorder::rec(channelId, frame, e)` (single-action overload): sets
the channel's `hasActions` flag to true, then inserts one action carrying a
fresh id (store insertion and id allocation modelled from the spec:
`record(channelId, frame, event) → Action`). -/
def recSingle (st : State) (channelId : Nat) (frame : Int) (e : MidiEvent) : State × Action :=
  let a := makeAction st.nextActionId channelId frame e
  ({ st with
       actions := st.actions ++ [a],
       nextActionId := st.nextActionId + 1,
       channels := setChannelHasActions st.channels channelId true }, a)

/-- `ActionRecorder::rec(channelId, f1, f2, e1, e2)` (pair overload): sets the
channel's `hasActions` flag to true, then inserts a linked pair in one step
(store insertion modelled from the spec: the two actions get fresh ids and
are linked to each other through `prevId`/`nextId`). -/
def recPair (st : State) (channelId : Nat) (f1 f2 : Int) (e1 e2 : MidiEvent) : State :=
  let i1 := st.nextActionId
  let i2 := st.nextActionId + 1
  let a1 : Action := ⟨i1, channelId, f1, e1, 0, i2⟩
  let a2 : Action := ⟨i2, channelId, f2, e2, i1, 0⟩
  { st with
      actions := st.actions ++ [a1, a2],
      nextActionId := st.nextActionId + 2,
      channels := setChannelHasActions st.channels channelId true }

/-- `ActionRecorder::deleteAction(channelId, id)`: delete from the store,
recompute the channel's `hasActions` flag, publish a HARD swap. -/
def deleteActionR (st : State) (channelId : Nat) (id : Nat) : State :=
  let as := Actions.deleteOne st.actions id
  { st with
      actions := as,
      channels := setChannelHasActions st.channels channelId (Actions.hasActionsC as channelId),
      swaps := st.swaps ++ [SwapType.HARD] }

/-- `ActionRecorder::clearActions(channelId, type)`: clear from the store,
recompute the channel's `hasActions` flag, publish a HARD swap. -/
def clearActionsR (st : State) (channelId : Nat) (type : Nat) : State :=
  let as := Actions.clearActionsCT st.actions channelId type
  { st with
      actions := as,
      channels := setChannelHasActions st.channels channelId (Actions.hasActionsC as channelId),
      swaps := st.swaps ++ [SwapType.HARD] }

/-- `ActionRecorder::recordMidiAction(channelId, note, velocity, f1, f2,
framesInLoop)`: default the duration when `f2 == 0`, shift both frames back
by any overflow past the loop length, then record a linked NOTE_ON/NOTE_OFF
pair. -/
def recordMidiAction (st : State) (channelId note velocity : Nat) (f1 f2 framesInLoop : Int) : State :=
  let f2 := if f2 = 0 then f1 + G_DEFAULT_ACTION_SIZE else f2
  let overflow := f2 - framesInLoop
  let f2 := if overflow > 0 then f2 - overflow else f2
  let f1 := if overflow > 0 then f1 - overflow else f1
  recPair st channelId f1 f2
    (MidiEvent.makeFrom3Bytes CHANNEL_NOTE_ON note velocity)
    (MidiEvent.makeFrom3Bytes CHANNEL_NOTE_OFF note velocity)

/-- `ActionRecorder::fixVerticalEnvActions(f, a1, a2)`: shift a frame that
collides with a neighbor by one frame away from the collision; `-1` when the
shifted frame still collides. -/
def fixVerticalEnvActions (f : Int) (a1 a2 : Action) : Int :=
  let f := if a1.frame = f then f + 1 else if a2.frame = f then f - 1 else f
  if a1.frame = f ∨ a2.frame = f then -1 else f

/-- `ActionRecorder::recordFirstEnvelopeAction(channelId, frame, value,
lastFrameInLoop)`: record the boundary actions at frame `0` and at the loop's
last frame (both with the baseline value `G_MAX_VELOCITY`) and the interior
action at the requested frame, then link the three into a circular chain. -/
def recordFirstEnvelopeAction (st : State) (channelId : Nat) (frame : Int) (value : Nat) (lastFrameInLoop : Int) : State :=
  let e1 := MidiEvent.makeFrom3Bytes CHANNEL_CC 0 G_MAX_VELOCITY
  let e2 := MidiEvent.makeFrom3Bytes CHANNEL_CC 0 value
  let p1 := recSingle st channelId 0 e1
  let p2 := recSingle p1.1 channelId frame e2
  let p3 := recSingle p2.1 channelId lastFrameInLoop e1
  let as := updateSiblingsL p3.1.actions p1.2.id p3.2.id p2.2.id
  let as := updateSiblingsL as p2.2.id p1.2.id p3.2.id
  let as := updateSiblingsL as p3.2.id p2.2.id p1.2.id
  { p3.1 with actions := as }

/-- `ActionRecorder::recordNonFirstEnvelopeAction(channelId, frame, value)`:
find the closest preceding envelope action `a1` and its successor `a3`
(assertion failure, embedded as `none`, when either is missing), fix vertical
collisions, bail out on the `-1` sentinel, else record the interior action
and splice it between `a1` and `a3`. -/
def recordNonFirstEnvelopeAction (st : State) (channelId : Nat) (frame : Int) (value : Nat) : Option State :=
  match Actions.getClosestAction st.actions channelId frame CHANNEL_CC with
  | none => none
  | some a1 =>
    match findAction st.actions a1.nextId with
    | none => none
    | some a3 =>
      let f := fixVerticalEnvActions frame a1 a3
      if f = -1 then some st
      else
        let e2 := MidiEvent.makeFrom3Bytes CHANNEL_CC 0 value
        let p2 := recSingle st channelId f e2
        some { p2.1 with actions := updateSiblingsL p2.1.actions p2.2.id a1.id a3.id }

/-- `ActionRecorder::recordEnvelopeAction(channelId, frame, value,
lastFrameInLoop)`: first-ever triple when the channel has no CONTROL_CHANGE
actions yet, otherwise non-first insertion. -/
def recordEnvelopeAction (st : State) (channelId : Nat) (frame : Int) (value : Nat) (lastFrameInLoop : Int) : Option State :=
  if Actions.hasActionsCT st.actions channelId CHANNEL_CC then
    recordNonFirstEnvelopeAction st channelId frame value
  else
    some (recordFirstEnvelopeAction st channelId frame value lastFrameInLoop)

/-- `ActionRecorder::isBoundaryEnvelopeAction(a)` with the store-level
resolution of the `prev`/`next` snapshot pointers; `none` embeds the
assertion failure on an unresolved link. -/
def isBoundaryEnvelopeActionR (as : List Action) (a : Action) : Option Bool :=
  match findAction as a.prevId, findAction as a.nextId with
  | some p, some n => some (decide (p.frame > a.frame) || decide (n.frame < a.frame))
  | _, _ => none

/-- `ActionRecorder::deleteEnvelopeAction(channelId, a)`: a boundary action
wipes every envelope action of that status on the channel; otherwise the two
neighbors are relinked around `a` first and only then `a` is deleted. -/
def deleteEnvelopeAction (st : State) (channelId : Nat) (a : Action) : Option State :=
  match isBoundaryEnvelopeActionR st.actions a with
  | none => none
  | some true => some (clearActionsR st channelId a.event.getStatus)
  | some false =>
    match findAction st.actions a.prevId, findAction st.actions a.nextId with
    | some a1, some a3 =>
      match findAction st.actions a1.prevId, findAction st.actions a3.nextId with
      | some a1prev, some a3next =>
        let as := updateSiblingsL st.actions a1.id a1prev.id a3.id
        let as := updateSiblingsL as a3.id a1.id a3next.id
        some (deleteActionR { st with actions := as } channelId a.id)
      | _, _ => none
    | _, _ => none

/-- `ActionRecorder::liveRec(channelId, e, globalFrame)`: append one freshly
captured action to the live-recording buffer (the C++ code asserts the event
is a note on/off; the claims only exercise such events). -/
def liveRec (st : State) (channelId : Nat) (e : MidiEvent) (globalFrame : Int) : State :=
  { st with
      liveActions := st.liveActions ++ [makeAction st.nextActionId channelId globalFrame e],
      nextActionId := st.nextActionId + 1 }

/-- `ActionRecorder::areComposite(a1, a2)`: a1 note-on, a2 note-off, same
note, same channel. -/
def areComposite (a1 a2 : Action) : Bool :=
  a1.event.status == CHANNEL_NOTE_ON &&
  a2.event.status == CHANNEL_NOTE_OFF &&
  a1.event.data1 == a2.event.data1 &&
  a1.channelId == a2.channelId

/-- The indexed `ActionRecorder::consolidate(a1, i)`: scan the buffer forward
starting from position `i` itself for the first composite partner of the
event at `i`, and link the pair via `nextId`/`prevId`. -/
def consolidateStep (buf : List Action) (i : Nat) : List Action :=
  match buf[i]? with
  | none => buf
  | some a1 =>
    match (buf.drop i).findIdx? (fun a2 => areComposite a1 a2) with
    | none => buf
    | some r =>
      match buf[i + r]? with
      | none => buf
      | some a2 => (buf.set i { a1 with nextId := a2.id }).set (i + r) { a2 with prevId := a1.id }

/-- The pairing loop of `ActionRecorder::consolidate()`: run the indexed
consolidation once for every buffer position, in order. -/
def consolidateBuf (buf : List Action) : List Action :=
  (List.range buf.length).foldl consolidateStep buf

/-- `ActionRecorder::consolidate()`: pair up the live buffer, commit the
whole buffer to the store (batch commit modelled from the spec:
`recordBatch` appends pre-built actions verbatim), clear the buffer, and
return the set of channel ids appearing in it. -/
def consolidate (st : State) : State × Finset Nat :=
  let buf := consolidateBuf st.liveActions
  ({ st with actions := st.actions ++ buf, liveActions := [] },
   (buf.map (·.channelId)).toFinset)

/-- Pass 1 of `cloneActions`: each visited source action is copied onto the
new channel under the next fresh id (the factory counter advances once per
visited action). -/
def clonePass1 (base newChannelId : Nat) : List Action → List Action
  | [] => []
  | x :: xs => { x with id := base, channelId := newChannelId } :: clonePass1 (base + 1) newChannelId xs

/-- The old-id→new-id map built during pass 1 of `cloneActions`. -/
def cloneIdMap (base : Nat) : List Action → List (Nat × Nat)
  | [] => []
  | x :: xs => (x.id, base) :: cloneIdMap (base + 1) xs

/-- Pass 2 of `cloneActions` on one clone: rewrite each non-zero sibling id
through the old-id→new-id map; a missing key (C++ `map::at` throw) embeds as
`none`. -/
def clonePass2 (idMap : List (Nat × Nat)) (a : Action) : Option Action :=
  match (if a.prevId = 0 then some 0 else List.lookup a.prevId idMap),
        (if a.nextId = 0 then some 0 else List.lookup a.nextId idMap) with
  | some p, some n => some { a with prevId := p, nextId := n }
  | _, _ => none

/-- `ActionRecorder::cloneActions(channelId, newChannelId)`: pass 1 copies
every action of the source channel onto the new channel under a fresh id,
recording the old-id→new-id map; pass 2 rewrites every non-zero
`prevId`/`nextId` through the map; the clones are batch-committed, the
destination's `hasActions` flag is set to true and a HARD swap is published
unconditionally; returns whether anything was cloned. -/
def cloneActions (st : State) (channelId newChannelId : Nat) : Option (State × Bool) :=
  let src := st.actions.filter (fun a => a.channelId == channelId)
  let idMap := cloneIdMap st.nextActionId src
  match (clonePass1 st.nextActionId newChannelId src).mapM (clonePass2 idMap) with
  | none => none
  | some clones =>
    some ({ st with
              actions := st.actions ++ clones,
              nextActionId := st.nextActionId + src.length,
              channels := setChannelHasActions st.channels newChannelId true,
              swaps := st.swaps ++ [SwapType.HARD] },
          !src.isEmpty)

/-!  Example stores used by concrete witnesses and counterexamples. -/

/-- Example action used by witnesses: a note-on on channel 1 at frame `f`. -/
def exAction (f : Int) : Action := ⟨1, 1, f, MidiEvent.makeFrom3Bytes CHANNEL_NOTE_ON 60 100, 0, 0⟩

/-- Example one-action store used by witnesses. -/
def exStore (f : Int) : State := ⟨[exAction f], [], 2, [⟨1, true⟩], []⟩

/-- C1 counterexample: on a store with a single action at frame 3,
`updateBpm(0.5, 8)` yields frame 1 (the C++ cast truncates `3 * 0.5 = 1.5`
toward zero), while the claimed `round(frame * ratio)` followed by the
quantizer-collapse rule yields frame 2. -/
theorem updateBpm_round_counterexample :
    (updateBpm (exStore 3) (1/2) 8).actions.map (·.frame) = [1] ∧
    round ((3 : ℚ) * (1/2)) +
      (if (0:Int) < Int.tmod 8 2 ∧ (Int.tmod 8 2 : Int) ≤ 6 then Int.tmod 8 2 else 0) = 2 := by
  constructor
  · norm_num [updateBpm, Actions.updateKeyFrames, updateBpmFrame, ratTrunc, exStore, exAction]
  · simp only [show Int.tmod 8 2 = (0:Int) from by decide]
    norm_num [round_eq]

/-- The quantizer-collapse rule as the claim states it: if the rescaled frame
is nonzero and `quantizerStep % frame` lies in `(0, 6]` the frame snaps up by
that remainder, else it stays put. -/
def collapseFrame (q f : Int) : Int :=
  if f ≠ 0 ∧ 0 < Int.tmod q f ∧ Int.tmod q f ≤ 6 then f + Int.tmod q f else f

/-- C1 (amended): `updateBpm(1.0, q)` leaves the state unchanged (no-op); for
every `ratio ≠ 1` every stored frame `f` is mapped to the C++ cast truncation
of `f * ratio` (not to `round(f * ratio)`), and then, letting `f'` be the
rescaled frame, if `f' ≠ 0` and `quantizerStep % f'` lies in `(0, 6]` the new
frame snaps up by that remainder; frames outside that window are left at the
rescaled value, and all other action fields are unchanged. -/
theorem updateBpm_amended (st : State) (ratio : ℚ) (q : Int) :
    (ratio = 1 → updateBpm st ratio q = st) ∧
    (ratio ≠ 1 →
      (updateBpm st ratio q).actions = st.actions.map (fun a =>
        { a with frame := collapseFrame q (ratTrunc ((a.frame : ℚ) * ratio)) })) := by
  constructor
  · intro h; simp [updateBpm, h]
  · intro h
    simp only [updateBpm, if_neg h, Actions.updateKeyFrames]
    apply List.map_congr_left
    intro a _
    have : updateBpmFrame ratio q a.frame =
        collapseFrame q (ratTrunc ((a.frame : ℚ) * ratio)) := by
      simp only [updateBpmFrame, collapseFrame]
      split_ifs with h1 h2 h3 h3 <;> tauto
    rw [this]

/-- Witness for C1 (amended), at ratio 1 (no-op branch) and at ratio 1/2 on a
single frame-7 action (truncation 3, collapse remainder 8 % 3 = 2, so 5). -/
theorem updateBpm_amended_witness :
    updateBpm (exStore 3) 1 8 = exStore 3 ∧
    (updateBpm (exStore 7) (1/2) 8).actions.map (·.frame) = [5] := by
  refine ⟨(updateBpm_amended (exStore 3) 1 8).1 rfl, ?_⟩
  rw [(updateBpm_amended (exStore 7) (1/2) 8).2 (by norm_num)]
  have h2 : Int.tmod 8 3 = 2 := by decide
  norm_num [exStore, exAction, collapseFrame, ratTrunc, h2]

/-- C9: `updateSamplerate(systemRate, patchRate)` is a no-op when the two
rates are equal; otherwise every stored action frame `f` is rescaled to
`⌊f * systemRate / patchRate⌋` with no quantizer-collapse rule applied and
all other action fields unchanged. -/
theorem updateSamplerate_spec (st : State) (sys patch : Int) :
    (sys = patch → updateSamplerate st sys patch = st) ∧
    (sys ≠ patch →
      (updateSamplerate st sys patch).actions = st.actions.map (fun a =>
        { a with frame := ⌊(a.frame : ℚ) * sys / patch⌋ })) := by
  constructor
  · intro h; simp [updateSamplerate, h]
  · intro h
    simp only [updateSamplerate, if_neg h, Actions.updateKeyFrames]
    apply List.map_congr_left
    intro a _
    rw [updateSamplerateFrame, mul_div_assoc]

/-- Witness for C9, at equal rates (no-op branch) and at rates 2:1 on a
single frame-3 action (floor of 6). -/
theorem updateSamplerate_spec_witness :
    updateSamplerate (exStore 3) 44100 44100 = exStore 3 ∧
    (updateSamplerate (exStore 3) 2 1).actions.map (·.frame) = [6] := by
  refine ⟨(updateSamplerate_spec (exStore 3) 44100 44100).1 rfl, ?_⟩
  rw [(updateSamplerate_spec (exStore 3) 2 1).2 (by norm_num)]
  norm_num [exStore, exAction]

/-- Setting a list element whose image under `f` agrees with the element it
replaces does not change the mapped list. -/
lemma map_set_congr {α β : Type} (f : α → β) (l : List α) (i : Nat) (a : α)
    (h : ∀ x, l[i]? = some x → f a = f x) :
    (l.set i a).map f = l.map f := by
  apply List.ext_getElem?
  intro j
  simp only [List.getElem?_map]
  rw [List.getElem?_set]
  split
  · next hij =>
    subst hij
    cases hx : l[i]? with
    | none =>
      have hlen : ¬ i < l.length := by
        intro hlt
        rcases List.getElem?_eq_getElem hlt ▸ hx with h
        simp at h
      simp [if_neg hlen, hx]
    | some x =>
      have hlt : i < l.length := (List.getElem?_eq_some.mp hx).1
      simp [if_pos hlt, hx, h x hx]
  · rfl

/-- The indexed consolidation step only rewrites sibling links: the channel
ids of the buffer are untouched. -/
lemma consolidateStep_map_channelId (buf : List Action) (i : Nat) :
    (consolidateStep buf i).map (·.channelId) = buf.map (·.channelId) := by
  cases h1 : buf[i]? with
  | none => unfold consolidateStep; rw [h1]
  | some a1 =>
    cases h2 : (buf.drop i).findIdx? (fun a2 => areComposite a1 a2) with
    | none => unfold consolidateStep; rw [h1]; dsimp only; rw [h2]
    | some r =>
      cases h3 : buf[i + r]? with
      | none => unfold consolidateStep; rw [h1]; dsimp only; rw [h2]; dsimp only; rw [h3]
      | some a2 =>
        unfold consolidateStep
        rw [h1]; dsimp only; rw [h2]; dsimp only; rw [h3]; dsimp only
        rw [map_set_congr, map_set_congr]
        · intro x hx
          rw [h1] at hx
          cases hx
          rfl
        · intro x hx
          rw [List.getElem?_set] at hx
          split at hx
          · next hii =>
            have hlt : i < buf.length := (List.getElem?_eq_some.mp h1).1
            rw [if_pos hlt] at hx
            cases hx
            rw [← hii] at h3
            rw [h1] at h3
            cases h3
            rfl
          · rw [h3] at hx
            cases hx
            rfl

/-- The consolidation pairing loop leaves the channel ids of the buffer
unchanged. -/
lemma consolidateBuf_map_channelId (buf : List Action) :
    (consolidateBuf buf).map (·.channelId) = buf.map (·.channelId) := by
  unfold consolidateBuf
  generalize List.range buf.length = idxs
  induction idxs generalizing buf with
  | nil => rfl
  | cons i is ih =>
    rw [List.foldl_cons, ih, consolidateStep_map_channelId]

/-- Event payload helper for the C2 example buffer. -/
def cEv (status note : Nat) : MidiEvent := MidiEvent.makeFrom3Bytes status note 100

/-- The C2 example: a state whose live buffer was filled by
`liveRec` with ON(60)@10, ON(64)@12, OFF(60)@50, OFF(64)@60 (ids 1..4). -/
def c2Store : State :=
  liveRec (liveRec (liveRec (liveRec ⟨[], [], 1, [⟨1, false⟩], []⟩
    1 (cEv CHANNEL_NOTE_ON 60) 10)
    1 (cEv CHANNEL_NOTE_ON 64) 12)
    1 (cEv CHANNEL_NOTE_OFF 60) 50)
    1 (cEv CHANNEL_NOTE_OFF 64) 60

/-- C2: `consolidate()` commits the whole (pairing-rewritten) buffer onto the
committed store, clears the buffer, and returns exactly the set of channel
ids appearing in the buffer — for every state.  On the interleaved example
buffer ON(60)@10, ON(64)@12, OFF(60)@50, OFF(64)@60 the forward scan from
each event's own position links 10 with 50 (ids 1↔3) and 12 with 60 (ids
2↔4), never cross-pairing; a lone unmatched note-on is left orphaned (links
stay 0). -/
theorem consolidate_spec :
    (∀ st : State,
      (consolidate st).1.actions = st.actions ++ consolidateBuf st.liveActions ∧
      (consolidate st).1.liveActions = [] ∧
      (consolidate st).2 = (st.liveActions.map (·.channelId)).toFinset) ∧
    (consolidate c2Store).1.actions =
      [⟨1, 1, 10, cEv CHANNEL_NOTE_ON 60, 0, 3⟩,
       ⟨2, 1, 12, cEv CHANNEL_NOTE_ON 64, 0, 4⟩,
       ⟨3, 1, 50, cEv CHANNEL_NOTE_OFF 60, 1, 0⟩,
       ⟨4, 1, 60, cEv CHANNEL_NOTE_OFF 64, 2, 0⟩] ∧
    (consolidate c2Store).2 = {1} ∧
    consolidateBuf [makeAction 1 1 10 (cEv CHANNEL_NOTE_ON 60)] =
      [makeAction 1 1 10 (cEv CHANNEL_NOTE_ON 60)] := by
  refine ⟨fun st => ⟨rfl, rfl, ?_⟩, by decide, by decide, by decide⟩
  show ((consolidateBuf st.liveActions).map (·.channelId)).toFinset = _
  rw [consolidateBuf_map_channelId]

/-- C8: `recordNote` (that is, `recordMidiAction(channelId, note, velocity,
f1, f2, loopLengthFrames)`) appends exactly two actions linked prev/next to
each other, with statuses NOTE_ON and NOTE_OFF and identical note and
velocity, at frames `f1` and `f2`; when `f2` is unspecified (`0`) the
duration defaults to `f2 = f1 + G_DEFAULT_ACTION_SIZE`; when `f2` exceeds the
loop length both frames are shifted back by the overflow `f2 - loop`, so the
off-action lands exactly on the loop end. -/
theorem recordMidiAction_spec (st : State) (c note vel : Nat) (f1 f2 loop : Int) :
    (recordMidiAction st c note vel f1 f2 loop).actions =
      (let h2 := if f2 = 0 then f1 + G_DEFAULT_ACTION_SIZE else f2
       let ov := h2 - loop
       let g1 := if 0 < ov then f1 - ov else f1
       let g2 := if 0 < ov then loop else h2
       st.actions ++
        [⟨st.nextActionId, c, g1, MidiEvent.makeFrom3Bytes CHANNEL_NOTE_ON note vel, 0, st.nextActionId + 1⟩,
         ⟨st.nextActionId + 1, c, g2, MidiEvent.makeFrom3Bytes CHANNEL_NOTE_OFF note vel, st.nextActionId, 0⟩]) := by
  simp only [recordMidiAction, recPair]
  split_ifs with h1 h2 h3 <;> simp_all

/-- A second example store, with a destination channel 2 present and flagged
`hasActions = false`, and no actions on channel 5. -/
def exStore2 : State := ⟨[exAction 3], [], 2, [⟨1, true⟩, ⟨2, false⟩], []⟩

/-- C10: `cloneActions(a, b)` on a source channel `a` holding no actions
still sets the destination channel's `hasActions` flag to true and publishes
a structural HARD swap, while committing nothing and returning `false` — so
channel `b` can end up flagged `hasActions = true` with zero actions. -/
theorem cloneActions_empty_source (st : State) (a b : Nat)
    (h : ∀ x ∈ st.actions, x.channelId ≠ a) :
    cloneActions st a b =
      some ({ st with
                channels := setChannelHasActions st.channels b true,
                swaps := st.swaps ++ [SwapType.HARD] }, false) := by
  have hsrc : st.actions.filter (fun x => x.channelId == a) = [] := by
    rw [List.filter_eq_nil_iff]
    intro x hx
    simpa using h x hx
  simp [cloneActions, hsrc, List.mapM.loop]

/-- Witness for C10: cloning from actionless channel 5 onto channel 2 of
`exStore2` flips channel 2's flag to true, publishes a HARD swap, leaves the
store without any channel-2 action, and returns `false`. -/
theorem cloneActions_empty_source_witness :
    cloneActions exStore2 5 2 =
      some ({ exStore2 with
                channels := [⟨1, true⟩, ⟨2, true⟩],
                swaps := [SwapType.HARD] }, false) ∧
    Actions.hasActionsC exStore2.actions 2 = false := by
  constructor
  · rw [cloneActions_empty_source exStore2 5 2 (by decide)]
    rfl
  · decide

/-- Unfolding lemma for `List.lookup` on a cons cell, with propositional
equality in the guard. -/
lemma lookup_cons_nat {β : Type} (a k : Nat) (v : β) (es : List (Nat × β)) :
    List.lookup a ((k, v) :: es) = if a = k then some v else List.lookup a es := by
  simp only [List.lookup]
  split <;> rename_i h
  · rw [if_pos (by simpa using h)]
  · rw [if_neg (by simpa using h)]

/-- A key present among the source ids is found by the pass-1 id map, at the
fresh id `base + position`. -/
lemma lookup_cloneIdMap (src : List Action) (base x : Nat) (hx : x ∈ src.map (·.id)) :
    List.lookup x (cloneIdMap base src) = some (base + (src.map (·.id)).indexOf x) := by
  induction src generalizing base with
  | nil => simp at hx
  | cons y ys ih =>
    rw [cloneIdMap, lookup_cons_nat]
    by_cases hxy : x = y.id
    · rw [if_pos hxy]
      subst hxy
      simp [List.indexOf_cons]
    · rw [if_neg hxy]
      have hx' : x ∈ ys.map (·.id) := by
        rcases List.mem_map.mp hx with ⟨z, hz, hzx⟩
        rcases hz with _ | hz
        · exact absurd hzx.symm hxy
        · exact List.mem_map.mpr ⟨z, by assumption, hzx⟩
      rw [ih (base + 1) hx']
      have hyx : (y.id == x) = false := by
        simp only [beq_eq_false_iff_ne, ne_eq]
        exact fun h => hxy h.symm
      have : ((y :: ys).map (·.id)).indexOf x = (ys.map (·.id)).indexOf x + 1 := by
        simp [List.indexOf_cons, hyx]
      rw [this]
      congr 1
      omega

/-- Pass 1 preserves the length of the visited source list. -/
lemma clonePass1_length (base b : Nat) (xs : List Action) :
    (clonePass1 base b xs).length = xs.length := by
  induction xs generalizing base with
  | nil => rfl
  | cons x xs ih => simp [clonePass1, ih]

/-- Pointwise description of pass 1: the i-th clone is the i-th source
action re-keyed to the i-th fresh id and moved onto the new channel. -/
lemma clonePass1_getElem (base b : Nat) (xs : List Action) (i : Nat)
    (hi : i < xs.length) (hi' : i < (clonePass1 base b xs).length) :
    (clonePass1 base b xs)[i] = { xs[i] with id := base + i, channelId := b } := by
  induction xs generalizing base i with
  | nil => simp at hi
  | cons x xs ih =>
    cases i with
    | zero => simp [clonePass1]
    | succ j =>
      have hj : j < xs.length := by simpa using hi
      have hj' : j < (clonePass1 (base + 1) b xs).length := by
        rw [clonePass1_length]; exact hj
      have h1 : (clonePass1 base b (x :: xs))[j + 1] = (clonePass1 (base + 1) b xs)[j] := by
        simp [clonePass1]
      have h2 : (x :: xs)[j + 1] = xs[j] := by simp
      rw [h1, h2, ih (base + 1) j hj hj']
      have h3 : base + 1 + j = base + (j + 1) := by omega
      rw [h3]

/-- When every non-zero sibling id of the visited actions is a key of the id
map, pass 2 succeeds on the whole pass-1 output and rewrites exactly the
sibling links. -/
lemma mapM_clonePass2 (m : List (Nat × Nat)) (b : Nat) (xs : List Action) (base : Nat)
    (h : ∀ x ∈ xs,
      (x.prevId ≠ 0 → ∃ v, List.lookup x.prevId m = some v) ∧
      (x.nextId ≠ 0 → ∃ v, List.lookup x.nextId m = some v)) :
    (clonePass1 base b xs).mapM (clonePass2 m) =
      some ((clonePass1 base b xs).map (fun x =>
        { x with prevId := if x.prevId = 0 then 0 else (List.lookup x.prevId m).getD 0,
                 nextId := if x.nextId = 0 then 0 else (List.lookup x.nextId m).getD 0 })) := by
  induction xs generalizing base with
  | nil => rfl
  | cons x xs ih =>
    have hx := h x (List.mem_cons_self x xs)
    have hxs : ∀ y ∈ xs,
        (y.prevId ≠ 0 → ∃ v, List.lookup y.prevId m = some v) ∧
        (y.nextId ≠ 0 → ∃ v, List.lookup y.nextId m = some v) :=
      fun y hy => h y (List.mem_cons_of_mem x hy)
    rw [clonePass1, List.mapM_cons, ih (base + 1) hxs]
    have hstep : clonePass2 m { x with id := base, channelId := b } =
        some { x with
               id := base
               channelId := b
               prevId := if x.prevId = 0 then 0 else (List.lookup x.prevId m).getD 0
               nextId := if x.nextId = 0 then 0 else (List.lookup x.nextId m).getD 0 } := by
      unfold clonePass2
      by_cases hp : x.prevId = 0 <;> by_cases hn : x.nextId = 0
      · simp [hp, hn]
      · rcases hx.2 hn with ⟨v, hv⟩
        simp [hp, hn, hv]
      · rcases hx.1 hp with ⟨v, hv⟩
        simp [hp, hn, hv]
      · rcases hx.1 hp with ⟨v, hv⟩
        rcases hx.2 hn with ⟨w, hw⟩
        simp [hp, hn, hv, hw]
    rw [hstep]
    simp [List.map_cons]

/-- C3: under the factory invariant (all committed ids are non-zero and below
the id counter), id uniqueness, and internal linkage of the source channel,
`cloneActions(a, b)` succeeds and produces on channel `b` an isomorphic copy
of channel `a`'s graph: the clones carry the same frames and event payloads
with ids rewritten through the injective fresh-id map `φ` and every non-zero
sibling link rewritten through it as well; the clone ids avoid every
pre-existing id, the original actions (channel `a` included) are left
untouched ahead of the appended clones, and the call returns true exactly
when at least one action was cloned. -/
theorem cloneActions_spec (st : State) (a b : Nat)
    (hIds : ∀ x ∈ st.actions, 0 < x.id ∧ x.id < st.nextActionId)
    (hNodup : (st.actions.map (·.id)).Nodup)
    (hLinks : ∀ x ∈ st.actions, x.channelId = a →
      (x.prevId ≠ 0 → ∃ y ∈ st.actions, y.channelId = a ∧ y.id = x.prevId) ∧
      (x.nextId ≠ 0 → ∃ y ∈ st.actions, y.channelId = a ∧ y.id = x.nextId)) :
    let src := st.actions.filter (fun x => x.channelId == a)
    let ids := src.map (·.id)
    let φ : Nat → Nat := fun z => st.nextActionId + ids.indexOf z
    let ψ : Nat → Nat := fun z => if z = 0 then 0 else φ z
    cloneActions st a b =
      some ({ st with
                actions := st.actions ++ src.map
                  (fun x => ⟨φ x.id, b, x.frame, x.event, ψ x.prevId, ψ x.nextId⟩),
                nextActionId := st.nextActionId + src.length,
                channels := setChannelHasActions st.channels b true,
                swaps := st.swaps ++ [SwapType.HARD] },
            !src.isEmpty) ∧
    (∀ z ∈ ids, ∀ w ∈ ids, φ z = φ w → z = w) ∧
    (∀ z, φ z ∉ st.actions.map (·.id)) ∧
    ((!src.isEmpty) = true ↔ ∃ x ∈ st.actions, x.channelId = a) := by
  intro src ids φ ψ
  have hsrc_mem : ∀ x ∈ src, x ∈ st.actions ∧ x.channelId = a := by
    intro x hx
    have := List.mem_filter.mp hx
    exact ⟨this.1, by simpa using this.2⟩
  have hids_nodup : ids.Nodup := by
    have hsub : src.Sublist st.actions := List.filter_sublist st.actions
    exact List.Nodup.sublist (hsub.map (·.id)) hNodup
  have hlink_in_ids : ∀ x ∈ src,
      (x.prevId ≠ 0 → x.prevId ∈ ids) ∧ (x.nextId ≠ 0 → x.nextId ∈ ids) := by
    intro x hx
    obtain ⟨hmem, hch⟩ := hsrc_mem x hx
    obtain ⟨hp, hn⟩ := hLinks x hmem hch
    constructor
    · intro h0
      obtain ⟨y, hy, hya, hyid⟩ := hp h0
      exact List.mem_map.mpr ⟨y, List.mem_filter.mpr ⟨hy, by simpa using hya⟩, hyid⟩
    · intro h0
      obtain ⟨y, hy, hya, hyid⟩ := hn h0
      exact List.mem_map.mpr ⟨y, List.mem_filter.mpr ⟨hy, by simpa using hya⟩, hyid⟩
  refine ⟨?_, ?_, ?_, ?_⟩
  · rw [cloneActions]
    have hmapm := mapM_clonePass2 (cloneIdMap st.nextActionId src) b src st.nextActionId ?hlk
    case hlk =>
      intro x hx
      obtain ⟨hp, hn⟩ := hlink_in_ids x hx
      exact ⟨fun h0 => ⟨_, lookup_cloneIdMap src st.nextActionId x.prevId (hp h0)⟩,
             fun h0 => ⟨_, lookup_cloneIdMap src st.nextActionId x.nextId (hn h0)⟩⟩
    rw [hmapm]
    have hlist : (clonePass1 st.nextActionId b src).map (fun x =>
        { x with prevId := if x.prevId = 0 then 0
                           else (List.lookup x.prevId (cloneIdMap st.nextActionId src)).getD 0,
                 nextId := if x.nextId = 0 then 0
                           else (List.lookup x.nextId (cloneIdMap st.nextActionId src)).getD 0 }) =
        src.map (fun x => ⟨φ x.id, b, x.frame, x.event, ψ x.prevId, ψ x.nextId⟩) := by
      apply List.ext_getElem
      · simp [clonePass1_length]
      · intro i hi1 hi2
        have hisrc : i < src.length := by simpa using hi2
        have hip : i < (clonePass1 st.nextActionId b src).length := by
          rw [clonePass1_length]; exact hisrc
        simp only [List.getElem_map]
        rw [clonePass1_getElem st.nextActionId b src i hisrc hip]
        have hidx : ids.indexOf src[i].id = i := by
          have : src[i].id = ids.get ⟨i, by simp only [ids, List.length_map]; exact hisrc⟩ := by
            simp [ids]
          rw [this]
          exact List.get_indexOf hids_nodup _
        have hmem_i : src[i] ∈ src := List.getElem_mem hisrc
        have hψp : (if src[i].prevId = 0 then 0
            else (List.lookup src[i].prevId (cloneIdMap st.nextActionId src)).getD 0) =
            ψ src[i].prevId := by
          by_cases h0 : src[i].prevId = 0
          · simp [ψ, h0]
          · rw [if_neg h0,
              lookup_cloneIdMap src st.nextActionId _ ((hlink_in_ids _ hmem_i).1 h0)]
            simp [ψ, φ, h0]
        have hψn : (if src[i].nextId = 0 then 0
            else (List.lookup src[i].nextId (cloneIdMap st.nextActionId src)).getD 0) =
            ψ src[i].nextId := by
          by_cases h0 : src[i].nextId = 0
          · simp [ψ, h0]
          · rw [if_neg h0,
              lookup_cloneIdMap src st.nextActionId _ ((hlink_in_ids _ hmem_i).2 h0)]
            simp [ψ, φ, h0]
        rw [hψp, hψn]
        simp [φ, hidx]
    rw [hlist]
  · intro z hz w hw hzw
    have : ids.indexOf z = ids.indexOf w := by
      simp only [φ] at hzw
      omega
    exact (List.indexOf_inj hz hw).mp this
  · intro z hmem
    rcases List.mem_map.mp hmem with ⟨o, ho, hoid⟩
    have := (hIds o ho).2
    simp only [φ] at hoid
    omega
  · rw [Bool.not_eq_eq_eq_not]
    simp only [Bool.not_true, List.isEmpty_eq_false_iff_exists_mem]
    constructor
    · rintro ⟨x, hx⟩
      obtain ⟨hmem, hch⟩ := hsrc_mem x hx
      exact ⟨x, hmem, hch⟩
    · rintro ⟨x, hx, hch⟩
      exact ⟨x, List.mem_filter.mpr ⟨hx, by simpa using hch⟩⟩

/-- Witness for C3: cloning channel 1 (one unlinked action, id 1) of
`exStore2` onto channel 3 appends one clone with fresh id 2 on channel 3 and
returns true. -/
theorem cloneActions_spec_witness :
    cloneActions exStore2 1 3 =
      some ({ exStore2 with
                actions := [exAction 3, ⟨2, 3, 3, (exAction 3).event, 0, 0⟩],
                nextActionId := 3,
                channels := setChannelHasActions exStore2.channels 3 true,
                swaps := [SwapType.HARD] }, true) := by
  have h := (cloneActions_spec exStore2 1 3 (by decide) (by decide) (by decide)).1
  rw [h]
  rfl

/-- `updateSiblingsL` distributes over list append. -/
lemma updateSiblingsL_append (as bs : List Action) (i p n : Nat) :
    updateSiblingsL (as ++ bs) i p n = updateSiblingsL as i p n ++ updateSiblingsL bs i p n :=
  List.map_append _ _ _

/-- `updateSiblingsL` leaves untouched every action named by none of the
three ids. -/
lemma updateSiblingsL_skip (as : List Action) (i p n : Nat)
    (h : ∀ a ∈ as, a.id ≠ i ∧ a.id ≠ p ∧ a.id ≠ n) :
    updateSiblingsL as i p n = as := by
  induction as with
  | nil => rfl
  | cons a as ih =>
    have ha := h a (List.mem_cons_self a as)
    simp only [updateSiblingsL, List.map_cons] at ih ⊢
    rw [ih (fun b hb => h b (List.mem_cons_of_mem a hb))]
    congr 1
    simp [ha.1, ha.2.1, ha.2.2]

/-- Setting the same channel flag to the same value twice is the same as
setting it once. -/
lemma setChannelHasActions_idem (chs : List Channel) (c : Nat) (v : Bool) :
    setChannelHasActions (setChannelHasActions chs c v) c v = setChannelHasActions chs c v := by
  simp only [setChannelHasActions, List.map_map]
  apply List.map_congr_left
  intro ch _
  by_cases h : ch.id = c <;> simp [h]

/-- Projection lemma: the id of a factory-built action. -/
lemma makeAction_id (i c : Nat) (f : Int) (e : MidiEvent) : (makeAction i c f e).id = i := rfl

/-- The three sibling updates of `recordFirstEnvelopeAction`, evaluated on
the freshly appended triple, produce the circular chain. -/
lemma updateSiblings_first_triple (n c : Nat) (hn : 0 < n) (f last : Int) (e1 e2 : MidiEvent) :
    updateSiblingsL (updateSiblingsL (updateSiblingsL
      [makeAction n c 0 e1, makeAction (n+1) c f e2, makeAction (n+2) c last e1]
      n (n+2) (n+1)) (n+1) n (n+2)) (n+2) (n+1) n =
      [⟨n, c, 0, e1, n+2, n+1⟩, ⟨n+1, c, f, e2, n, n+2⟩, ⟨n+2, c, last, e1, n+1, n⟩] := by
  simp +arith [updateSiblingsL, makeAction, hn.ne']

lemma recordFirst_result (st : State) (c : Nat) (f : Int) (v : Nat) (last : Int)
    (hno : Actions.hasActionsCT st.actions c CHANNEL_CC = false)
    (hpos : 0 < st.nextActionId)
    (hIds : ∀ x ∈ st.actions, x.id < st.nextActionId) :
    recordEnvelopeAction st c f v last =
      some { st with
               actions := st.actions ++
                 [⟨st.nextActionId, c, 0, MidiEvent.makeFrom3Bytes CHANNEL_CC 0 G_MAX_VELOCITY,
                   st.nextActionId + 2, st.nextActionId + 1⟩,
                  ⟨st.nextActionId + 1, c, f, MidiEvent.makeFrom3Bytes CHANNEL_CC 0 v,
                   st.nextActionId, st.nextActionId + 2⟩,
                  ⟨st.nextActionId + 2, c, last, MidiEvent.makeFrom3Bytes CHANNEL_CC 0 G_MAX_VELOCITY,
                   st.nextActionId + 1, st.nextActionId⟩]
               nextActionId := st.nextActionId + 3
               channels := setChannelHasActions st.channels c true } := by
  have hskip : ∀ i p n : Nat, st.nextActionId ≤ i → st.nextActionId ≤ p → st.nextActionId ≤ n →
      updateSiblingsL st.actions i p n = st.actions := by
    intro i p n hi hp hn
    apply updateSiblingsL_skip
    intro a ha
    have := hIds a ha
    omega
  simp only [recordEnvelopeAction, hno, Bool.false_eq_true, if_false]
  rw [recordFirstEnvelopeAction]
  simp only [recSingle, makeAction_id]
  have happ : ((st.actions ++ [makeAction st.nextActionId c 0
      (MidiEvent.makeFrom3Bytes CHANNEL_CC 0 G_MAX_VELOCITY)]) ++
      [makeAction (st.nextActionId + 1) c f (MidiEvent.makeFrom3Bytes CHANNEL_CC 0 v)]) ++
      [makeAction (st.nextActionId + 1 + 1) c last (MidiEvent.makeFrom3Bytes CHANNEL_CC 0 G_MAX_VELOCITY)] =
      st.actions ++
      [makeAction st.nextActionId c 0 (MidiEvent.makeFrom3Bytes CHANNEL_CC 0 G_MAX_VELOCITY),
       makeAction (st.nextActionId + 1) c f (MidiEvent.makeFrom3Bytes CHANNEL_CC 0 v),
       makeAction (st.nextActionId + 2) c last (MidiEvent.makeFrom3Bytes CHANNEL_CC 0 G_MAX_VELOCITY)] := by
    simp
  rw [happ]
  rw [updateSiblingsL_append, hskip _ _ _ (by omega) (by omega) (by omega)]
  rw [updateSiblingsL_append, hskip _ _ _ (by omega) (by omega) (by omega)]
  rw [updateSiblingsL_append, hskip _ _ _ (by omega) (by omega) (by omega)]
  rw [updateSiblings_first_triple st.nextActionId c hpos f last]
  rw [setChannelHasActions_idem, setChannelHasActions_idem]

/-- C4: on a channel with no envelope (CONTROL_CHANGE) actions,
`recordEnvelopePoint(c, frame, value, lastFrameInLoop)` creates exactly three
actions — a boundary at frame 0 and a boundary at the loop's last frame,
both carrying the baseline value `G_MAX_VELOCITY`, plus an interior action at
the requested frame carrying the requested value — linked into a circular
prev/next chain (the last boundary links back to the first). -/
theorem recordFirstEnvelope_spec (st : State) (c : Nat) (f : Int) (v : Nat) (last : Int)
    (hno : Actions.hasActionsCT st.actions c CHANNEL_CC = false)
    (hpos : 0 < st.nextActionId)
    (hIds : ∀ x ∈ st.actions, x.id < st.nextActionId) :
    recordEnvelopeAction st c f v last =
      some { st with
               actions := st.actions ++
                 [⟨st.nextActionId, c, 0, MidiEvent.makeFrom3Bytes CHANNEL_CC 0 G_MAX_VELOCITY,
                   st.nextActionId + 2, st.nextActionId + 1⟩,
                  ⟨st.nextActionId + 1, c, f, MidiEvent.makeFrom3Bytes CHANNEL_CC 0 v,
                   st.nextActionId, st.nextActionId + 2⟩,
                  ⟨st.nextActionId + 2, c, last, MidiEvent.makeFrom3Bytes CHANNEL_CC 0 G_MAX_VELOCITY,
                   st.nextActionId + 1, st.nextActionId⟩]
               nextActionId := st.nextActionId + 3
               channels := setChannelHasActions st.channels c true } :=
  recordFirst_result st c f v last hno hpos hIds

/-- Witness for C4: on `exStore` (one note action on channel 1, no envelope
actions), recording an envelope point at frame 20 with value 64 in a
100-frame loop creates the boundary/interior/boundary triple with circular
links. -/
theorem recordFirstEnvelope_spec_witness :
    recordEnvelopeAction (exStore 3) 1 20 64 100 =
      some { exStore 3 with
               actions := (exStore 3).actions ++
                 [⟨2, 1, 0, MidiEvent.makeFrom3Bytes CHANNEL_CC 0 G_MAX_VELOCITY, 4, 3⟩,
                  ⟨3, 1, 20, MidiEvent.makeFrom3Bytes CHANNEL_CC 0 64, 2, 4⟩,
                  ⟨4, 1, 100, MidiEvent.makeFrom3Bytes CHANNEL_CC 0 G_MAX_VELOCITY, 3, 2⟩]
               nextActionId := 5
               channels := setChannelHasActions (exStore 3).channels 1 true } := by
  rw [recordFirstEnvelope_spec (exStore 3) 1 20 64 100 (by decide) (by decide) (by decide)]
  rfl

/-- Membership and id of the result of `findAction`. -/
lemma findAction_eq (as : List Action) (id : Nat) (a : Action)
    (h : findAction as id = some a) : a ∈ as ∧ a.id = id := by
  refine ⟨List.mem_of_find?_eq_some h, ?_⟩
  have := List.find?_some h
  simpa using this

lemma recordNonFirst_result (st : State) (c : Nat) (f : Int) (v : Nat)
    (a1 a3 : Action)
    (hclosest : Actions.getClosestAction st.actions c f CHANNEL_CC = some a1)
    (hnext : findAction st.actions a1.nextId = some a3)
    (hIds : ∀ x ∈ st.actions, 0 < x.id ∧ x.id < st.nextActionId) :
    (fixVerticalEnvActions f a1 a3 =
      (if a1.frame = f then (if a3.frame = f + 1 then -1 else f + 1)
       else if a3.frame = f then (if a1.frame = f - 1 then -1 else f - 1)
       else f)) ∧
    (fixVerticalEnvActions f a1 a3 = -1 →
      recordNonFirstEnvelopeAction st c f v = some st) ∧
    (fixVerticalEnvActions f a1 a3 ≠ -1 →
      recordNonFirstEnvelopeAction st c f v =
        some { st with
                 actions :=
                   st.actions.map (fun x =>
                     let x := if x.id = a1.id then { x with nextId := st.nextActionId } else x
                     if x.id = a3.id then { x with prevId := st.nextActionId } else x) ++
                   [⟨st.nextActionId, c, fixVerticalEnvActions f a1 a3,
                     MidiEvent.makeFrom3Bytes CHANNEL_CC 0 v, a1.id, a3.id⟩]
                 nextActionId := st.nextActionId + 1
                 channels := setChannelHasActions st.channels c true }) := by
  obtain ⟨ha1mem, ha1id⟩ : a1 ∈ st.actions ∧ True := by
    constructor
    · have : a1 ∈ st.actions.filter
          (fun a => a.channelId == c && a.event.status == CHANNEL_CC && decide (a.frame ≤ f)) :=
        List.argmax_mem hclosest
      exact (List.mem_filter.mp this).1
    · trivial
  obtain ⟨ha3mem, ha3id⟩ := findAction_eq st.actions a1.nextId a3 hnext
  have ha1pos := hIds a1 ha1mem
  have ha3pos := hIds a3 ha3mem
  refine ⟨?_, ?_, ?_⟩
  · rw [fixVerticalEnvActions]
    split_ifs <;> omega
  · intro hreject
    rw [recordNonFirstEnvelopeAction, hclosest]
    dsimp only
    rw [hnext]
    dsimp only
    rw [if_pos hreject]
  · intro haccept
    rw [recordNonFirstEnvelopeAction, hclosest]
    dsimp only
    rw [hnext]
    dsimp only
    rw [if_neg haccept]
    simp only [recSingle, makeAction_id]
    have hmap : updateSiblingsL st.actions st.nextActionId a1.id a3.id =
        st.actions.map (fun x =>
          let x := if x.id = a1.id then { x with nextId := st.nextActionId } else x
          if x.id = a3.id then { x with prevId := st.nextActionId } else x) := by
      rw [updateSiblingsL]
      apply List.map_congr_left
      intro x hx
      have hxid := hIds x hx
      have hxne : ¬ x.id = st.nextActionId := by omega
      simp only [if_neg hxne]
      by_cases h1 : x.id = a1.id <;> by_cases h3 : x.id = a3.id <;>
        simp [h1, h3, ha1pos.1.ne', ha3pos.1.ne']
    have hone : updateSiblingsL
        [makeAction st.nextActionId c (fixVerticalEnvActions f a1 a3)
          (MidiEvent.makeFrom3Bytes CHANNEL_CC 0 v)] st.nextActionId a1.id a3.id =
        [⟨st.nextActionId, c, fixVerticalEnvActions f a1 a3,
          MidiEvent.makeFrom3Bytes CHANNEL_CC 0 v, a1.id, a3.id⟩] := by
      rw [updateSiblingsL]
      simp only [List.map_cons, List.map_nil, makeAction]
      have h1 : ¬ st.nextActionId = a1.id := by omega
      have h3 : ¬ st.nextActionId = a3.id := by omega
      simp [h1, h3]
    rw [updateSiblingsL_append, hmap, hone]

/-- C5: for a non-first envelope insertion with closest preceding action `a1`
and successor `a3`: the requested frame is shifted forward by one exactly
when it equals `a1`'s frame, else back by one exactly when it equals `a3`'s
frame; if the (possibly shifted) frame still equals a neighbor's frame the
insertion is rejected as a graceful no-op (the state, committed store
included, is unchanged); otherwise the new interior node is recorded at the
shifted frame and spliced between `a1` and `a3`. -/
theorem recordNonFirstEnvelope_spec (st : State) (c : Nat) (f : Int) (v : Nat)
    (a1 a3 : Action)
    (hclosest : Actions.getClosestAction st.actions c f CHANNEL_CC = some a1)
    (hnext : findAction st.actions a1.nextId = some a3)
    (hIds : ∀ x ∈ st.actions, 0 < x.id ∧ x.id < st.nextActionId) :
    (fixVerticalEnvActions f a1 a3 =
      (if a1.frame = f then (if a3.frame = f + 1 then -1 else f + 1)
       else if a3.frame = f then (if a1.frame = f - 1 then -1 else f - 1)
       else f)) ∧
    (fixVerticalEnvActions f a1 a3 = -1 →
      recordNonFirstEnvelopeAction st c f v = some st) ∧
    (fixVerticalEnvActions f a1 a3 ≠ -1 →
      recordNonFirstEnvelopeAction st c f v =
        some { st with
                 actions :=
                   st.actions.map (fun x =>
                     let x := if x.id = a1.id then { x with nextId := st.nextActionId } else x
                     if x.id = a3.id then { x with prevId := st.nextActionId } else x) ++
                   [⟨st.nextActionId, c, fixVerticalEnvActions f a1 a3,
                     MidiEvent.makeFrom3Bytes CHANNEL_CC 0 v, a1.id, a3.id⟩]
                 nextActionId := st.nextActionId + 1
                 channels := setChannelHasActions st.channels c true }) :=
  recordNonFirst_result st c f v a1 a3 hclosest hnext hIds

/-- A committed three-node envelope chain on channel 1 (boundary@0, id 2;
interior@20, id 3; boundary@100, id 4), as `recordFirstEnvelopeAction`
leaves it; used by the envelope witnesses. -/
def envStore : State :=
  ⟨[⟨2, 1, 0, MidiEvent.makeFrom3Bytes CHANNEL_CC 0 G_MAX_VELOCITY, 4, 3⟩,
    ⟨3, 1, 20, MidiEvent.makeFrom3Bytes CHANNEL_CC 0 64, 2, 4⟩,
    ⟨4, 1, 100, MidiEvent.makeFrom3Bytes CHANNEL_CC 0 G_MAX_VELOCITY, 3, 2⟩],
   [], 5, [⟨1, true⟩], []⟩

/-- Witness for C5: inserting at the fresh frame 50 of `envStore` (closest
preceding node id 3 at frame 20, successor id 4 at frame 100) splices a new
id-5 node between them; inserting at frame 20 with successor at 21 would be
rejected (exercised through the `fixVerticalEnvActions` characterization). -/
theorem recordNonFirstEnvelope_spec_witness :
    recordNonFirstEnvelopeAction envStore 1 50 80 =
      some { envStore with
               actions :=
                 [⟨2, 1, 0, MidiEvent.makeFrom3Bytes CHANNEL_CC 0 G_MAX_VELOCITY, 4, 3⟩,
                  ⟨3, 1, 20, MidiEvent.makeFrom3Bytes CHANNEL_CC 0 64, 2, 5⟩,
                  ⟨4, 1, 100, MidiEvent.makeFrom3Bytes CHANNEL_CC 0 G_MAX_VELOCITY, 5, 2⟩,
                  ⟨5, 1, 50, MidiEvent.makeFrom3Bytes CHANNEL_CC 0 80, 3, 4⟩]
               nextActionId := 6
               channels := setChannelHasActions envStore.channels 1 true } := by
  have h := (recordNonFirstEnvelope_spec envStore 1 50 80
    ⟨3, 1, 20, MidiEvent.makeFrom3Bytes CHANNEL_CC 0 64, 2, 4⟩
    ⟨4, 1, 100, MidiEvent.makeFrom3Bytes CHANNEL_CC 0 G_MAX_VELOCITY, 3, 2⟩
    (by decide) (by decide) (by decide)).2.2 (by decide)
  rw [h]
  decide

set_option maxHeartbeats 1000000 in
/-- Pointwise effect of the two neighbor-relinking sibling updates of
`deleteEnvelopeAction` on a chain-consistent, id-unique store: the only net
change is `p.nextId := n.id` and `n.prevId := p.id`. -/
lemma relink_step (S : List Action)
    (huniq : ∀ y ∈ S, ∀ z ∈ S, y.id = z.id → y = z)
    (x p n pp nn : Action)
    (hxS : x ∈ S) (hpS : p ∈ S) (hnS : n ∈ S) (hppS : pp ∈ S) (hnnS : nn ∈ S)
    (hpn : p.id ≠ n.id) (hppp : pp.id ≠ p.id) (hnnn : nn.id ≠ n.id)
    (hpprev : p.prevId = pp.id) (hnnext : n.nextId = nn.id)
    (hppnext : pp.nextId = p.id) (hnnprev : nn.prevId = n.id) :
    (fun y =>
      let y := if y.id = n.id then { y with prevId := p.id, nextId := nn.id } else y
      let y := if p.id ≠ 0 ∧ y.id = p.id then { y with nextId := n.id } else y
      if nn.id ≠ 0 ∧ y.id = nn.id then { y with prevId := n.id } else y)
    ((fun y =>
      let y := if y.id = p.id then { y with prevId := pp.id, nextId := n.id } else y
      let y := if pp.id ≠ 0 ∧ y.id = pp.id then { y with nextId := p.id } else y
      if n.id ≠ 0 ∧ y.id = n.id then { y with prevId := p.id } else y) x) =
    (let x := if x.id = p.id then { x with nextId := n.id } else x
     if x.id = n.id then { x with prevId := p.id } else x) := by
  obtain ⟨xi, xc, xf, xe, xv, xw⟩ := x
  obtain ⟨pi, pc, pf, pe, pv, pw⟩ := p
  obtain ⟨ni, nc, nf, en, nv, nw⟩ := n
  obtain ⟨qi, qc, qf, qe, qv, qw⟩ := pp
  obtain ⟨ri, rc, rf, er, rv, rw⟩ := nn
  simp only at hpn hppp hnnn hpprev hnnext hppnext hnnprev
  have hpn2 : ni ≠ pi := Ne.symm hpn
  have hppp2 : pi ≠ qi := Ne.symm hppp
  have hnnn2 : ni ≠ ri := Ne.symm hnnn
  by_cases hxp : xi = pi
  · have hx := huniq _ hxS _ hpS (by simpa using hxp)
    injection hx with e1 e2 e3 e4 e5 e6
    subst e1 e2 e3 e4 e5 e6
    by_cases hxnn : xi = ri
    · have hr := huniq _ hnnS _ hxS (by simpa using hxnn.symm)
      injection hr with e1 e2 e3 e4 e5 e6
      subst e1 e2 e3 e4 e5 e6
      clear huniq hxS hpS hnS hppS hnnS
      simp_all
    · clear huniq hxS hpS hnS hppS hnnS
      simp_all
  · by_cases hxn : xi = ni
    · have hx := huniq _ hxS _ hnS (by simpa using hxn)
      injection hx with e1 e2 e3 e4 e5 e6
      subst e1 e2 e3 e4 e5 e6
      by_cases hxpp : xi = qi
      · have hq := huniq _ hppS _ hxS (by simpa using hxpp.symm)
        injection hq with e1 e2 e3 e4 e5 e6
        subst e1 e2 e3 e4 e5 e6
        clear huniq hxS hpS hnS hppS hnnS
        simp_all
        all_goals split_ifs <;> first | rfl | omega | simp_all
      · clear huniq hxS hpS hnS hppS hnnS
        simp_all
        all_goals split_ifs <;> first | rfl | omega | simp_all
    · by_cases hxpp : xi = qi
      · have hx := huniq _ hxS _ hppS (by simpa using hxpp)
        injection hx with e1 e2 e3 e4 e5 e6
        subst e1 e2 e3 e4 e5 e6
        by_cases hxnn : xi = ri
        · have hr := huniq _ hnnS _ hxS (by simpa using hxnn.symm)
          injection hr with e1 e2 e3 e4 e5 e6
          subst e1 e2 e3 e4 e5 e6
          clear huniq hxS hpS hnS hppS hnnS
          simp_all
        · clear huniq hxS hpS hnS hppS hnnS
          simp_all
      · by_cases hxnn : xi = ri
        · have hx := huniq _ hxS _ hnnS (by simpa using hxnn)
          injection hx with e1 e2 e3 e4 e5 e6
          subst e1 e2 e3 e4 e5 e6
          clear huniq hxS hpS hnS hppS hnnS
          simp_all
        · clear huniq hxS hpS hnS hppS hnnS
          simp_all

/-- C6: for an envelope action `a` whose snapshot links resolve to `p` and
`n`: if `a` is a boundary action (`p.frame > a.frame` or `n.frame < a.frame`)
then `deleteEnvelopeAction(c, a)` clears every action of `a`'s status on the
channel; otherwise, on a chain-consistent id-unique store, the two neighbors
are relinked to each other (`p.nextId := n.id`, `n.prevId := p.id`) and only
`a` is deleted — in both branches the flag is recomputed and a HARD swap is
published. -/
theorem deleteEnvelopeAction_spec (st : State) (c : Nat) (a p n : Action)
    (hp : findAction st.actions a.prevId = some p)
    (hn : findAction st.actions a.nextId = some n) :
    (p.frame > a.frame ∨ n.frame < a.frame →
      deleteEnvelopeAction st c a =
        some { st with
                 actions := Actions.clearActionsCT st.actions c a.event.getStatus
                 channels := setChannelHasActions st.channels c
                   (Actions.hasActionsC (Actions.clearActionsCT st.actions c a.event.getStatus) c)
                 swaps := st.swaps ++ [SwapType.HARD] }) ∧
    (¬(p.frame > a.frame ∨ n.frame < a.frame) →
      ∀ pp nn : Action,
        findAction st.actions p.prevId = some pp →
        findAction st.actions n.nextId = some nn →
        (st.actions.map (·.id)).Nodup →
        p.id ≠ n.id → pp.id ≠ p.id → nn.id ≠ n.id →
        pp.nextId = p.id → nn.prevId = n.id →
        deleteEnvelopeAction st c a =
          some { st with
                   actions := (st.actions.map (fun x =>
                       let x := if x.id = p.id then { x with nextId := n.id } else x
                       if x.id = n.id then { x with prevId := p.id } else x)).filter
                     (fun x => x.id != a.id)
                   channels := setChannelHasActions st.channels c
                     (Actions.hasActionsC ((st.actions.map (fun x =>
                         let x := if x.id = p.id then { x with nextId := n.id } else x
                         if x.id = n.id then { x with prevId := p.id } else x)).filter
                       (fun x => x.id != a.id)) c)
                   swaps := st.swaps ++ [SwapType.HARD] }) := by
  have hbool : isBoundaryEnvelopeActionR st.actions a =
      some (decide (p.frame > a.frame) || decide (n.frame < a.frame)) := by
    unfold isBoundaryEnvelopeActionR
    rw [hp, hn]
  constructor
  · intro hb
    have ht : (decide (p.frame > a.frame) || decide (n.frame < a.frame)) = true := by
      rcases hb with h | h <;> simp [h]
    rw [deleteEnvelopeAction, hbool, ht]
    rfl
  · intro hnb pp nn hpp hnn hnd hpn hppp hnnn hppnext hnnprev
    rw [not_or] at hnb
    have hf : (decide (p.frame > a.frame) || decide (n.frame < a.frame)) = false := by
      simp [hnb.1, hnb.2]
    obtain ⟨hpmem, hpid⟩ := findAction_eq st.actions a.prevId p hp
    obtain ⟨hnmem, hnid⟩ := findAction_eq st.actions a.nextId n hn
    obtain ⟨hppmem, hppid⟩ := findAction_eq st.actions p.prevId pp hpp
    obtain ⟨hnnmem, hnnid⟩ := findAction_eq st.actions n.nextId nn hnn
    have hu : updateSiblingsL (updateSiblingsL st.actions p.id pp.id n.id) n.id p.id nn.id =
        st.actions.map (fun x =>
          let x := if x.id = p.id then { x with nextId := n.id } else x
          if x.id = n.id then { x with prevId := p.id } else x) := by
      rw [updateSiblingsL, updateSiblingsL, List.map_map]
      apply List.map_congr_left
      intro x hx
      have := relink_step st.actions
        (fun y hy z hz h => List.inj_on_of_nodup_map hnd hy hz h)
        x p n pp nn hx hpmem hnmem hppmem hnnmem hpn hppp hnnn
        hppid.symm hnnid.symm hppnext hnnprev
      simpa [Function.comp] using this
    rw [deleteEnvelopeAction, hbool, hf]
    dsimp only
    rw [hp, hn]
    dsimp only
    rw [hpp, hnn]
    dsimp only
    rw [hu]
    rfl

/-- Witness for C6: on the three-node chain of `envStore`, deleting the
interior node (id 3) relinks the two boundaries to each other and removes
only id 3, while deleting the frame-0 boundary node (id 2) clears every
envelope action of the channel. -/
theorem deleteEnvelopeAction_spec_witness :
    deleteEnvelopeAction envStore 1 ⟨3, 1, 20, MidiEvent.makeFrom3Bytes CHANNEL_CC 0 64, 2, 4⟩ =
      some { envStore with
               actions :=
                 [⟨2, 1, 0, MidiEvent.makeFrom3Bytes CHANNEL_CC 0 G_MAX_VELOCITY, 4, 4⟩,
                  ⟨4, 1, 100, MidiEvent.makeFrom3Bytes CHANNEL_CC 0 G_MAX_VELOCITY, 2, 2⟩]
               channels := [⟨1, true⟩]
               swaps := [SwapType.HARD] } ∧
    deleteEnvelopeAction envStore 1
        ⟨2, 1, 0, MidiEvent.makeFrom3Bytes CHANNEL_CC 0 G_MAX_VELOCITY, 4, 3⟩ =
      some { envStore with
               actions := []
               channels := [⟨1, false⟩]
               swaps := [SwapType.HARD] } := by
  constructor
  · have h := (deleteEnvelopeAction_spec envStore 1
      ⟨3, 1, 20, MidiEvent.makeFrom3Bytes CHANNEL_CC 0 64, 2, 4⟩
      ⟨2, 1, 0, MidiEvent.makeFrom3Bytes CHANNEL_CC 0 G_MAX_VELOCITY, 4, 3⟩
      ⟨4, 1, 100, MidiEvent.makeFrom3Bytes CHANNEL_CC 0 G_MAX_VELOCITY, 3, 2⟩
      (by decide) (by decide)).2 (by decide)
      ⟨4, 1, 100, MidiEvent.makeFrom3Bytes CHANNEL_CC 0 G_MAX_VELOCITY, 3, 2⟩
      ⟨2, 1, 0, MidiEvent.makeFrom3Bytes CHANNEL_CC 0 G_MAX_VELOCITY, 4, 3⟩
      (by decide) (by decide) (by decide) (by decide) (by decide) (by decide)
      (by decide) (by decide)
    rw [h]
    decide
  · have h := (deleteEnvelopeAction_spec envStore 1
      ⟨2, 1, 0, MidiEvent.makeFrom3Bytes CHANNEL_CC 0 G_MAX_VELOCITY, 4, 3⟩
      ⟨4, 1, 100, MidiEvent.makeFrom3Bytes CHANNEL_CC 0 G_MAX_VELOCITY, 3, 2⟩
      ⟨3, 1, 20, MidiEvent.makeFrom3Bytes CHANNEL_CC 0 64, 2, 4⟩
      (by decide) (by decide)).1 (by decide)
    rw [h]
    decide

/-- The envelope (CONTROL_CHANGE) actions of one channel. -/
def envActions (st : State) (c : Nat) : List Action :=
  st.actions.filter (fun a => a.channelId == c && a.event.status == CHANNEL_CC)

/-- The frames of the envelope actions of one channel. -/
def envFrames (st : State) (c : Nat) : List Int :=
  (envActions st c).map (·.frame)

/-- Minimum of a list of frames, `none` on the empty list. -/
def listMin : List Int → Option Int
  | [] => none
  | x :: xs =>
    match listMin xs with
    | none => some x
    | some m => some (min x m)

/-- The least frame strictly above `x`. -/
def leastAbove (fs : List Int) (x : Int) : Option Int :=
  listMin (fs.filter (fun y => decide (x < y)))

/-- `y` is the cyclic successor frame of `x` in `fs`: the least frame above
`x`, or the overall minimum when nothing lies above `x` (wraparound). -/
def succFrame (fs : List Int) (x y : Int) : Prop :=
  match leastAbove fs x with
  | some g => y = g
  | none => listMin fs = some y

/-- The chain invariant maintained by the envelope operations on a channel:
distinct nonnegative frames, a frame-0 node when nonempty, factory id
discipline, and every node's `nextId` resolving to its cyclic successor. -/
def chainInv (st : State) (c : Nat) : Prop :=
  (envFrames st c).Nodup ∧
  (∀ a ∈ envActions st c, 0 ≤ a.frame) ∧
  (envActions st c ≠ [] → ∃ z ∈ envActions st c, z.frame = 0) ∧
  0 < st.nextActionId ∧
  (∀ x ∈ st.actions, 0 < x.id ∧ x.id < st.nextActionId) ∧
  (st.actions.map (·.id)).Nodup ∧
  ∀ a ∈ envActions st c, ∃ b ∈ envActions st c,
    findAction st.actions a.nextId = some b ∧
    succFrame (envFrames st c) a.frame b.frame

/-- One `recordEnvelopePoint` call: requested frame, value, loop length. -/
structure EnvCall where
  frame : Int
  value : Nat
  last : Int

/-- Run a sequence of `recordEnvelopePoint` calls on one channel, aborting
on an embedded assertion failure. -/
def envRun (c : Nat) : State → List EnvCall → Option State
  | st, [] => some st
  | st, k :: ks =>
    match recordEnvelopeAction st c k.frame k.value k.last with
    | none => none
    | some st2 => envRun c st2 ks

/-- A frame list has no minimum exactly when it is empty. -/
lemma listMin_eq_none_iff : ∀ (xs : List Int), listMin xs = none ↔ xs = [] := by
  intro xs
  cases xs with
  | nil => simp [listMin]
  | cons x xs =>
    rw [listMin]
    cases hxs : listMin xs <;> simp

/-- The minimum of a frame list is a member and a lower bound. -/
lemma listMin_spec : ∀ (fs : List Int) (m : Int), listMin fs = some m →
    m ∈ fs ∧ ∀ y ∈ fs, m ≤ y := by
  intro fs
  induction fs with
  | nil => intro m h; simp [listMin] at h
  | cons x xs ih =>
    intro m h
    rw [listMin] at h
    cases hxs : listMin xs with
    | none =>
      rw [hxs] at h
      cases h
      have hempty : xs = [] := (listMin_eq_none_iff xs).mp hxs
      subst hempty
      simp
    | some m0 =>
      rw [hxs] at h
      cases h
      obtain ⟨hmem, hle⟩ := ih m0 hxs
      constructor
      · rcases le_total x m0 with hc | hc
        · simp [min_eq_left hc]
        · right
          rw [min_eq_right hc]
          exact hmem
      · intro y hy
        rcases List.mem_cons.mp hy with rfl | hy
        · exact min_le_left _ _
        · exact le_trans (min_le_right _ _) (hle y hy)

/-- A nonempty frame list has a minimum. -/
lemma listMin_isSome (fs : List Int) (h : fs ≠ []) : ∃ m, listMin fs = some m := by
  cases hm : listMin fs with
  | none => exact absurd ((listMin_eq_none_iff fs).mp hm) h
  | some m => exact ⟨m, rfl⟩

/-- The minimum is unique: any member that bounds the list below is it. -/
lemma listMin_eq_of (fs : List Int) (m : Int) (hm : m ∈ fs) (hle : ∀ y ∈ fs, m ≤ y) :
    listMin fs = some m := by
  obtain ⟨m0, hm0⟩ := listMin_isSome fs (by rintro rfl; simp at hm)
  obtain ⟨hm0mem, hm0le⟩ := listMin_spec fs m0 hm0
  rw [hm0]
  congr 1
  exact le_antisymm (hm0le m hm) (hle m0 hm0mem)

/-- Appending one frame to a list combines with the minimum. -/
lemma listMin_append_one (fs : List Int) (z : Int) :
    listMin (fs ++ [z]) =
      some (match listMin fs with | none => z | some m => min m z) := by
  induction fs with
  | nil => simp [listMin]
  | cons x xs ih =>
    rw [List.cons_append, listMin, ih, listMin]
    cases hxs : listMin xs with
    | none =>
      have hempty : xs = [] := (listMin_eq_none_iff xs).mp hxs
      subst hempty
      simp
    | some m => simp [min_assoc]

/-- An absent `hasActions(channel, type)` flag means the envelope-action
filter is empty. -/
lemma hasActionsCT_false_iff (st : State) (c : Nat) :
    Actions.hasActionsCT st.actions c CHANNEL_CC = false ↔ envActions st c = [] := by
  rw [Actions.hasActionsCT, envActions, List.any_eq_false, List.filter_eq_nil_iff]

/-- `findAction` distributes over append. -/
lemma findAction_append (as bs : List Action) (i : Nat) :
    findAction (as ++ bs) i = (findAction as i).or (findAction bs i) :=
  List.find?_append

/-- `findAction` misses a list whose ids all differ from the key. -/
lemma findAction_none (as : List Action) (i : Nat) (h : ∀ x ∈ as, x.id ≠ i) :
    findAction as i = none := by
  rw [findAction, List.find?_eq_none]
  intro x hx
  simpa using h x hx

/-- The first envelope insertion with `0 < frame < lastFrameInLoop`
establishes the chain invariant. -/
lemma chainInv_first (st : State) (c : Nat) (f : Int) (v : Nat) (last : Int)
    (hInv : chainInv st c)
    (hno : Actions.hasActionsCT st.actions c CHANNEL_CC = false)
    (hf0 : 0 < f) (hflast : f < last) :
    ∃ st2, recordEnvelopeAction st c f v last = some st2 ∧ chainInv st2 c := by
  obtain ⟨hnd, hfr, hz, hposid, hids, hidnd, hchain⟩ := hInv
  have heq := recordFirst_result st c f v last hno hposid (fun x hx => (hids x hx).2)
  refine ⟨_, heq, ?_⟩
  have hempty : envActions st c = [] := (hasActionsCT_false_iff st c).mp hno
  set n := st.nextActionId with hn
  set A1 : Action := ⟨n, c, 0, MidiEvent.makeFrom3Bytes CHANNEL_CC 0 G_MAX_VELOCITY, n + 2, n + 1⟩
  set A2 : Action := ⟨n + 1, c, f, MidiEvent.makeFrom3Bytes CHANNEL_CC 0 v, n, n + 2⟩
  set A3 : Action := ⟨n + 2, c, last, MidiEvent.makeFrom3Bytes CHANNEL_CC 0 G_MAX_VELOCITY, n + 1, n⟩
  have henv : ∀ stx : State, stx.actions = st.actions ++ [A1, A2, A3] →
      envActions stx c = [A1, A2, A3] := by
    intro stx hx
    rw [envActions, hx, List.filter_append]
    have h1 : envActions st c = [] := hempty
    rw [envActions] at h1
    rw [h1]
    simp [A1, A2, A3, MidiEvent.makeFrom3Bytes]
  have henv2 : envActions
      { st with
          actions := st.actions ++ [A1, A2, A3]
          nextActionId := n + 3
          channels := setChannelHasActions st.channels c true } c = [A1, A2, A3] :=
    henv _ rfl
  refine ⟨?_, ?_, ?_, ?_, ?_, ?_, ?_⟩
  · rw [envFrames, henv2]
    simp [A1, A2, A3]
    omega
  · rw [henv2]
    rintro a ha
    simp only [List.mem_cons, List.not_mem_nil, or_false] at ha
    rcases ha with rfl | rfl | rfl
    · simp [A1]
    · simp [A2]; omega
    · simp [A3]; omega
  · intro h
    rw [henv2]
    exact ⟨A1, by simp, rfl⟩
  · show 0 < n + 3
    omega
  · intro x hx
    simp at hx
    rcases hx with hx | rfl | rfl | rfl
    · have := hids x hx
      simp
      omega
    · simp [A1]
      omega
    · simp [A2]
    · simp [A3]
  · simp only [List.map_append]
    rw [List.nodup_append]
    refine ⟨hidnd, ?_, ?_⟩
    · simp [A1, A2, A3]
    · intro i hi hi2
      rcases List.mem_map.mp hi with ⟨x, hx, rfl⟩
      have := (hids x hx).2
      simp [A1, A2, A3] at hi2
      omega
  · rw [henv2]
    have hfind : ∀ i : Nat, n ≤ i →
        findAction (st.actions ++ [A1, A2, A3]) i = findAction [A1, A2, A3] i := by
      intro i hi
      rw [findAction_append, findAction_none st.actions i
        (fun x hx => by have := (hids x hx).2; omega)]
      rfl
    have hframes : envFrames
        { st with
            actions := st.actions ++ [A1, A2, A3]
            nextActionId := n + 3
            channels := setChannelHasActions st.channels c true } c = [0, f, last] := by
      rw [envFrames, henv2]
      simp [A1, A2, A3]
    rintro a ha
    simp only [List.mem_cons, List.not_mem_nil, or_false] at ha
    rcases ha with rfl | rfl | rfl
    · refine ⟨A2, by simp, ?_, ?_⟩
      · show findAction (st.actions ++ [A1, A2, A3]) (n + 1) = some A2
        rw [hfind (n + 1) (by omega)]
        rw [findAction]
        have b1 : (n == n + 1) = false := by simp
        have b2 : (n + 1 == n + 1) = true := by simp
        simp [List.find?, b1, b2]
      · rw [hframes]
        show succFrame [0, f, last] (0 : Int) f
        rw [succFrame, leastAbove]
        have : ([0, f, last] : List Int).filter (fun y => decide ((0:Int) < y)) = [f, last] := by
          simp [hf0, lt_trans hf0 hflast]
        rw [this]
        simp [listMin, min_eq_left hflast.le]
    · refine ⟨A3, by simp, ?_, ?_⟩
      · show findAction (st.actions ++ [A1, A2, A3]) (n + 2) = some A3
        rw [hfind (n + 2) (by omega)]
        rw [findAction]
        have b1 : (n == n + 2) = false := by simp
        have b2 : (n + 1 == n + 2) = false := by simp
        have b3 : (n + 2 == n + 2) = true := by simp
        simp [List.find?, b1, b2, b3]
      · rw [hframes]
        show succFrame [0, f, last] f last
        rw [succFrame, leastAbove]
        have c1 : ¬ (f < (0:Int)) := by omega
        have c2 : ¬ (f < f) := by omega
        have : ([0, f, last] : List Int).filter (fun y => decide (f < y)) = [last] := by
          simp [c1, c2, hflast]
        rw [this]
        simp [listMin]
    · refine ⟨A1, by simp, ?_, ?_⟩
      · show findAction (st.actions ++ [A1, A2, A3]) n = some A1
        rw [hfind n (by omega)]
        rw [findAction]
        have b1 : (n == n) = true := by simp
        simp [List.find?, b1]
      · rw [hframes]
        show succFrame [0, f, last] last 0
        rw [succFrame, leastAbove]
        have : ([0, f, last] : List Int).filter (fun y => decide (last < y)) = [] := by
          simp
          omega
        rw [this]
        simp [listMin, min_eq_left hf0.le, min_eq_left (le_trans hf0.le hflast.le)]
        omega

/-- Inserting a fresh frame `g` right after `x` (nothing of `F` lies in
`(x, g]`) makes `g` the cyclic successor of `x`. -/
lemma succFrame_insert_at (F : List Int) (x g : Int)
    (hg2 : x < g) (hg3 : ∀ y ∈ F, x < y → g < y) :
    succFrame (F ++ [g]) x g := by
  rw [succFrame, leastAbove, List.filter_append]
  have h1 : ([g].filter fun y => decide (x < y)) = [g] := by simp [hg2]
  rw [h1, listMin_append_one]
  cases hm : listMin (F.filter fun y => decide (x < y)) with
  | none => rfl
  | some m =>
    obtain ⟨hmem, _⟩ := listMin_spec _ m hm
    rw [List.mem_filter] at hmem
    have hgm := hg3 m hmem.1 (by simpa using hmem.2)
    simp [min_eq_right hgm.le]

/-- The successor of the freshly inserted frame `g` is the old successor of
`x` (the node `g` was spliced after). -/
lemma succFrame_insert_new (F : List Int) (x g y3 : Int)
    (hxF : x ∈ F) (hg2 : x < g) (hg3 : ∀ y ∈ F, x < y → g < y)
    (hsucc : succFrame F x y3) :
    succFrame (F ++ [g]) g y3 := by
  rw [succFrame] at hsucc ⊢
  rw [leastAbove, List.filter_append]
  have hgg : ([g].filter fun y => decide (g < y)) = [] := by simp
  rw [hgg, List.append_nil]
  rw [leastAbove] at hsucc
  cases hla : listMin (F.filter fun y => decide (x < y)) with
  | some G =>
    rw [hla] at hsucc
    obtain ⟨hGmem, hGle⟩ := listMin_spec _ G hla
    rw [List.mem_filter] at hGmem
    have hGF : G ∈ F := hGmem.1
    have hGx : x < G := by simpa using hGmem.2
    have hGg : g < G := hg3 G hGF hGx
    have : listMin (F.filter fun y => decide (g < y)) = some G := by
      apply listMin_eq_of
      · rw [List.mem_filter]
        exact ⟨hGF, by simpa using hGg⟩
      · intro y hy
        rw [List.mem_filter] at hy
        have hyg : g < y := by simpa using hy.2
        exact hGle y (List.mem_filter.mpr ⟨hy.1, by simp; omega⟩)
    rw [this]
    exact hsucc
  | none =>
    rw [hla] at hsucc
    have hnone : ∀ y ∈ F, ¬ x < y := by
      intro y hy hxy
      have : y ∈ F.filter fun z => decide (x < z) := List.mem_filter.mpr ⟨hy, by simpa⟩
      rw [(listMin_eq_none_iff _).mp hla] at this
      simp at this
    have hempty : (F.filter fun y => decide (g < y)) = [] := by
      rw [List.filter_eq_nil_iff]
      intro y hy
      have := hnone y hy
      simp
      omega
    rw [hempty]
    show listMin (F ++ [g]) = some y3
    rw [listMin_append_one, hsucc]
    obtain ⟨hy3mem, hy3le⟩ := listMin_spec F y3 hsucc
    have : y3 ≤ x := hy3le x hxF
    simp [min_eq_left (by omega : y3 ≤ g)]

/-- Every other node keeps its cyclic successor when the fresh frame `g` is
inserted right after `x`. -/
lemma succFrame_insert_other (F : List Int) (x g w y : Int)
    (hxF : x ∈ F) (hwF : w ∈ F) (hwx : w ≠ x)
    (hg2 : x < g) (hg3 : ∀ z ∈ F, x < z → g < z)
    (hsucc : succFrame F w y) :
    succFrame (F ++ [g]) w y := by
  rw [succFrame] at hsucc ⊢
  rw [leastAbove, List.filter_append]
  rcases lt_or_gt_of_ne hwx with hw | hw
  · have hwg : w < g := lt_trans hw hg2
    have h1 : ([g].filter fun z => decide (w < z)) = [g] := by simp [hwg]
    rw [h1, listMin_append_one]
    rw [leastAbove] at hsucc
    cases hla : listMin (F.filter fun z => decide (w < z)) with
    | none =>
      exfalso
      have : x ∈ F.filter fun z => decide (w < z) := List.mem_filter.mpr ⟨hxF, by simpa⟩
      rw [(listMin_eq_none_iff _).mp hla] at this
      simp at this
    | some m =>
      rw [hla] at hsucc
      obtain ⟨hmmem, hmle⟩ := listMin_spec _ m hla
      have hmx : m ≤ x := hmle x (List.mem_filter.mpr ⟨hxF, by simpa⟩)
      simp [min_eq_left (by omega : m ≤ g)]
      exact hsucc
  · have hgw : g < w := hg3 w hwF hw
    have h1 : ([g].filter fun z => decide (w < z)) = [] := by
      simp
      omega
    rw [h1, List.append_nil]
    rw [leastAbove] at hsucc
    cases hla : listMin (F.filter fun z => decide (w < z)) with
    | none =>
      rw [hla] at hsucc
      show listMin (F ++ [g]) = some y
      rw [listMin_append_one, hsucc]
      obtain ⟨hymem, hyle⟩ := listMin_spec F y hsucc
      have : y ≤ x := hyle x hxF
      simp [min_eq_left (by omega : y ≤ g)]
    | some m =>
      rw [hla] at hsucc
      exact hsucc

/-- Filtering the envelope predicate commutes with a map that preserves
channel and event. -/
lemma filter_map_pres (ρ : Action → Action)
    (hch : ∀ x, (ρ x).channelId = x.channelId)
    (hev : ∀ x, (ρ x).event = x.event) (as : List Action) (c : Nat) :
    ((as.map ρ).filter fun a => a.channelId == c && a.event.status == CHANNEL_CC) =
      (as.filter fun a => a.channelId == c && a.event.status == CHANNEL_CC).map ρ := by
  induction as with
  | nil => rfl
  | cons x xs ih =>
    simp only [List.map_cons, List.filter_cons]
    rw [hch x, hev x]
    by_cases h : (x.channelId == c && x.event.status == CHANNEL_CC) = true
    · simp only [h, if_pos]
      rw [ih]
      rfl
    · rw [if_neg (by simpa using h), if_neg (by simpa using h), ih]

/-- `findAction` commutes with an id-preserving map. -/
lemma findAction_map_presid (ρ : Action → Action) (hid : ∀ x, (ρ x).id = x.id)
    (as : List Action) (i : Nat) :
    findAction (as.map ρ) i = (findAction as i).map ρ := by
  induction as with
  | nil => rfl
  | cons x xs ih =>
    rw [findAction, findAction, List.map_cons, List.find?_cons, List.find?_cons, hid x]
    cases h : (x.id == i) with
    | true => rfl
    | false => rw [findAction, findAction] at ih; exact ih

/-- On an id-unique store, looking up a member's own id finds it. -/
lemma findAction_self (as : List Action) (hnd : (as.map (·.id)).Nodup)
    (a : Action) (ha : a ∈ as) : findAction as a.id = some a := by
  induction as with
  | nil => simp at ha
  | cons x xs ih =>
    rw [findAction, List.find?_cons]
    rcases List.mem_cons.mp ha with rfl | ha2
    · simp
    · have hnd2 : (xs.map (·.id)).Nodup := by
        rw [List.map_cons, List.nodup_cons] at hnd
        exact hnd.2
      have hne : (x.id == a.id) = false := by
        rw [List.map_cons, List.nodup_cons] at hnd
        simp only [beq_eq_false_iff_ne, ne_eq]
        intro h
        exact hnd.1 (h ▸ List.mem_map.mpr ⟨a, ha2, rfl⟩)
      rw [hne]
      rw [findAction] at ih
      exact ih hnd2 ha2

/-- A successful non-first envelope insertion preserves the chain
invariant. -/
lemma chainInv_nonFirst (st : State) (c : Nat) (f : Int) (v : Nat) (st2 : State)
    (hInv : chainInv st c)
    (hrun : recordNonFirstEnvelopeAction st c f v = some st2) :
    chainInv st2 c := by
  obtain ⟨hnd, hfr, hz, hposid, hids, hidnd, hchain⟩ := hInv
  cases hc : Actions.getClosestAction st.actions c f CHANNEL_CC with
  | none => rw [recordNonFirstEnvelopeAction, hc] at hrun; cases hrun
  | some a1 =>
  cases hf3 : findAction st.actions a1.nextId with
  | none =>
    rw [recordNonFirstEnvelopeAction, hc] at hrun
    dsimp only at hrun
    rw [hf3] at hrun
    cases hrun
  | some a3 =>
  set g := fixVerticalEnvActions f a1 a3 with hgdef
  by_cases hrej : g = -1
  · have h2 := (recordNonFirst_result st c f v a1 a3 hc hf3 hids).2.1 hrej
    rw [h2] at hrun
    cases hrun
    exact ⟨hnd, hfr, hz, hposid, hids, hidnd, hchain⟩
  · -- facts about a1 and a3
    have ha1arg : a1 ∈ List.argmax (·.frame)
        (st.actions.filter fun a =>
          a.channelId == c && a.event.status == CHANNEL_CC && decide (a.frame ≤ f)) := by
      rw [Option.mem_def]
      exact hc
    have ha1filter := List.argmax_mem ha1arg
    rw [List.mem_filter] at ha1filter
    have ha1env : a1 ∈ envActions st c := by
      rw [envActions, List.mem_filter]
      refine ⟨ha1filter.1, ?_⟩
      have := ha1filter.2
      simp at this ⊢
      exact ⟨this.1.1, this.1.2⟩
    have ha1f : a1.frame ≤ f := by
      have := ha1filter.2
      simp at this
      exact this.2
    have hmax : ∀ b ∈ envActions st c, b.frame ≤ f → b.frame ≤ a1.frame := by
      intro b hb hbf
      rw [envActions, List.mem_filter] at hb
      refine List.le_of_mem_argmax ?_ ha1arg
      rw [List.mem_filter]
      refine ⟨hb.1, ?_⟩
      have := hb.2
      simp at this ⊢
      exact ⟨⟨this.1, this.2⟩, hbf⟩
    obtain ⟨b0, hb0mem, hb0find, hsucc13⟩ := hchain a1 ha1env
    rw [hf3] at hb0find
    injection hb0find with hb0eq
    subst hb0eq
    have ha3env : a3 ∈ envActions st c := hb0mem
    set F := envFrames st c with hFdef
    have ha1F : a1.frame ∈ F := List.mem_map.mpr ⟨a1, ha1env, rfl⟩
    have ha3F : a3.frame ∈ F := List.mem_map.mpr ⟨a3, ha3env, rfl⟩
    have huniqF : ∀ y ∈ envActions st c, ∀ z ∈ envActions st c, y.frame = z.frame → y = z :=
      fun y hy z hz h => List.inj_on_of_nodup_map hnd hy hz h
    have huniqId : ∀ y ∈ st.actions, ∀ z ∈ st.actions, y.id = z.id → y = z :=
      fun y hy z hz h => List.inj_on_of_nodup_map hidnd hy hz h
    have hfixchar := (recordNonFirst_result st c f v a1 a3 hc hf3 hids).1
    -- the two key positional facts about the inserted frame g
    have hkeys : a1.frame < g ∧ ∀ y ∈ F, a1.frame < y → g < y := by
      by_cases hfF : f ∈ F
      · obtain ⟨bf, hbfmem, hbfframe⟩ := List.mem_map.mp hfF
        have ha1eq : a1.frame = f :=
          le_antisymm ha1f (hbfframe ▸ hmax bf hbfmem (le_of_eq hbfframe))
        have hg : g = f + 1 ∧ a3.frame ≠ f + 1 := by
          by_cases h31 : a3.frame = f + 1
          · exfalso
            apply hrej
            rw [hgdef, hfixchar, if_pos ha1eq, if_pos h31]
          · constructor
            · rw [hgdef, hfixchar, if_pos ha1eq, if_neg h31]
            · exact h31
        have hnof1 : ∀ y ∈ F, y ≠ f + 1 := by
          intro y hy hyeq
          rw [succFrame] at hsucc13
          cases hla : leastAbove F a1.frame with
          | some G =>
            rw [hla] at hsucc13
            rw [leastAbove] at hla
            obtain ⟨hGmem, hGle⟩ := listMin_spec _ G hla
            rw [List.mem_filter] at hGmem
            have hGgt : a1.frame < G := by simpa using hGmem.2
            have hGley : G ≤ y :=
              hGle y (List.mem_filter.mpr ⟨hy, by simp; omega⟩)
            have : G = f + 1 := by omega
            exact hg.2 (hsucc13.trans this)
          | none =>
            rw [leastAbove] at hla
            have : y ∈ F.filter fun z => decide (a1.frame < z) :=
              List.mem_filter.mpr ⟨hy, by simp; omega⟩
            rw [(listMin_eq_none_iff _).mp hla] at this
            simp at this
        constructor
        · rw [hg.1]; omega
        · intro y hy hya1
          have := hnof1 y hy
          rw [hg.1]
          omega
      · have ha1ne : a1.frame ≠ f := fun h => hfF (h ▸ ha1F)
        have ha3ne : a3.frame ≠ f := fun h => hfF (h ▸ ha3F)
        have hg : g = f := by rw [hgdef, hfixchar, if_neg ha1ne, if_neg ha3ne]
        constructor
        · rw [hg]; omega
        · intro y hy hya1
          obtain ⟨by0, hby0mem, hby0frame⟩ := List.mem_map.mp hy
          rw [hg]
          rcases lt_or_le f y with h | h
          · exact h
          · exfalso
            have := hmax by0 hby0mem (hby0frame ▸ h)
            omega
    obtain ⟨hkey2, hkey3⟩ := hkeys
    have hkey1 : g ∉ F := by
      intro hgF
      have := hkey3 g hgF hkey2
      omega
    -- the resulting state
    have h3 := (recordNonFirst_result st c f v a1 a3 hc hf3 hids).2.2 hrej
    rw [← hgdef] at h3
    rw [h3] at hrun
    injection hrun with hrun2
    subst hrun2
    clear h3
    set n := st.nextActionId with hndef
    set ρ : Action → Action := fun x =>
      let x := if x.id = a1.id then { x with nextId := n } else x
      if x.id = a3.id then { x with prevId := n } else x with hρdef
    set A2 : Action := ⟨n, c, g, MidiEvent.makeFrom3Bytes CHANNEL_CC 0 v, a1.id, a3.id⟩ with hA2def
    have hρch : ∀ x, (ρ x).channelId = x.channelId := by
      intro x
      rw [hρdef]
      dsimp only
      split_ifs <;> rfl
    have hρev : ∀ x, (ρ x).event = x.event := by
      intro x
      rw [hρdef]
      dsimp only
      split_ifs <;> rfl
    have hρid : ∀ x, (ρ x).id = x.id := by
      intro x
      rw [hρdef]
      dsimp only
      split_ifs <;> rfl
    have hρfr : ∀ x, (ρ x).frame = x.frame := by
      intro x
      rw [hρdef]
      dsimp only
      split_ifs <;> rfl
    have henv2 : ∀ stx : State, stx.actions = st.actions.map ρ ++ [A2] →
        envActions stx c = (envActions st c).map ρ ++ [A2] := by
      intro stx hx
      rw [envActions, hx, List.filter_append, filter_map_pres ρ hρch hρev]
      congr 1
      simp [A2, MidiEvent.makeFrom3Bytes]
    have henvmain := henv2
      { st with
          actions := st.actions.map ρ ++ [A2]
          nextActionId := n + 1
          channels := setChannelHasActions st.channels c true } rfl
    have hframesmain : envFrames
        { st with
            actions := st.actions.map ρ ++ [A2]
            nextActionId := n + 1
            channels := setChannelHasActions st.channels c true } c = F ++ [g] := by
      rw [envFrames, henvmain, List.map_append, List.map_map]
      congr 1
      rw [hFdef, envFrames]
      apply List.map_congr_left
      intro x _
      simpa using hρfr x
    refine ⟨?_, ?_, ?_, ?_, ?_, ?_, ?_⟩
    · rw [hframesmain, List.nodup_append]
      refine ⟨hnd, by simp, ?_⟩
      intro y hy hy2
      rw [List.mem_singleton] at hy2
      subst hy2
      exact hkey1 hy
    · rw [henvmain]
      intro a ha
      rcases List.mem_append.mp ha with ha | ha
      · obtain ⟨y, hymem, rfl⟩ := List.mem_map.mp ha
        rw [hρfr y]
        exact hfr y hymem
      · rw [List.mem_singleton] at ha
        subst ha
        show (0:Int) ≤ g
        have := hfr a1 ha1env
        omega
    · intro h
      rw [henvmain]
      obtain ⟨z, hzmem, hzframe⟩ := hz (by
        intro hemp
        rw [envActions] at hemp
        rw [envActions] at ha1env
        rw [hemp] at ha1env
        simp at ha1env)
      exact ⟨ρ z, List.mem_append.mpr (Or.inl (List.mem_map.mpr ⟨z, hzmem, rfl⟩)),
             (hρfr z).trans hzframe⟩
    · show 0 < n + 1
      omega
    · intro x hx
      rcases List.mem_append.mp hx with hx | hx
      · obtain ⟨y, hymem, rfl⟩ := List.mem_map.mp hx
        rw [hρid y]
        have := hids y hymem
        show 0 < y.id ∧ y.id < n + 1
        omega
      · rw [List.mem_singleton] at hx
        subst hx
        show 0 < n ∧ n < n + 1
        omega
    · show ((st.actions.map ρ ++ [A2]).map (·.id)).Nodup
      rw [List.map_append, List.map_map]
      have : (st.actions.map ((fun x => x.id) ∘ ρ)) = st.actions.map (·.id) := by
        apply List.map_congr_left
        intro x _
        simpa using hρid x
      rw [this, List.nodup_append]
      refine ⟨hidnd, by simp, ?_⟩
      intro y hy hy2
      simp only [A2, List.map_cons, List.map_nil, List.mem_singleton] at hy2
      subst hy2
      obtain ⟨x, hxmem, hxid⟩ := List.mem_map.mp hy
      have := (hids x hxmem).2
      omega
    · -- the chain component
      have hfind2 : ∀ i : Nat, i < n →
          findAction (st.actions.map ρ ++ [A2]) i = (findAction st.actions i).map ρ := by
        intro i hi
        rw [findAction_append, findAction_map_presid ρ hρid]
        cases h : findAction st.actions i with
        | some b => rfl
        | none =>
          show Option.or none (findAction [A2] i) = none
          rw [Option.none_or]
          apply findAction_none
          intro x hx
          rw [List.mem_singleton] at hx
          subst hx
          show n ≠ i
          omega
      have hfindn : findAction (st.actions.map ρ ++ [A2]) n = some A2 := by
        rw [findAction_append, findAction_map_presid ρ hρid]
        rw [findAction_none st.actions n (fun x hx => by have := (hids x hx).2; omega)]
        show Option.or none (findAction [A2] n) = some A2
        rw [Option.none_or, findAction]
        simp [A2]
      rw [henvmain]
      intro y' hy'
      rcases List.mem_append.mp hy' with hy' | hy'
      · obtain ⟨y, hymem, rfl⟩ := List.mem_map.mp hy'
        by_cases hya : y = a1
        · subst hya
          have hρnext : (ρ y).nextId = n := by
            rw [hρdef]
            dsimp only
            rw [if_pos rfl]
            split_ifs <;> rfl
          refine ⟨A2, List.mem_append.mpr (Or.inr (by simp)), ?_, ?_⟩
          · rw [hρnext]
            exact hfindn
          · rw [hframesmain, hρfr y]
            show succFrame (F ++ [g]) y.frame A2.frame
            have : A2.frame = g := rfl
            rw [this]
            exact succFrame_insert_at F y.frame g hkey2 hkey3
        · have hynid : y.id ≠ a1.id := by
            intro h
            exact hya (huniqId y (List.mem_of_mem_filter hymem) a1
              (List.mem_of_mem_filter ha1env) h)
          have hρnext : (ρ y).nextId = y.nextId := by
            rw [hρdef]
            dsimp only
            rw [if_neg hynid]
            split_ifs <;> rfl
          obtain ⟨b, hbmem, hbfind, hbsucc⟩ := hchain y hymem
          have hbid : b.id = y.nextId := by
            have := List.find?_some hbfind
            simpa using this
          have hbidlt : y.nextId < n := by
            rw [← hbid]
            exact (hids b (List.mem_of_mem_filter hbmem)).2
          refine ⟨ρ b, List.mem_append.mpr (Or.inl (List.mem_map.mpr ⟨b, hbmem, rfl⟩)), ?_, ?_⟩
          · rw [hρnext, hfind2 y.nextId hbidlt, hbfind]
            rfl
          · rw [hframesmain, hρfr y, hρfr b]
            apply succFrame_insert_other F a1.frame g y.frame b.frame ha1F
              (List.mem_map.mpr ⟨y, hymem, rfl⟩) ?_ hkey2 hkey3 hbsucc
            intro h
            exact hya (huniqF y hymem a1 ha1env h)
      · rw [List.mem_singleton] at hy'
        subst hy'
        have ha3lt : a3.id < n := (hids a3 (List.mem_of_mem_filter ha3env)).2
        refine ⟨ρ a3, List.mem_append.mpr (Or.inl (List.mem_map.mpr ⟨a3, ha3env, rfl⟩)), ?_, ?_⟩
        · show findAction (st.actions.map ρ ++ [A2]) A2.nextId = some (ρ a3)
          have : A2.nextId = a3.id := rfl
          rw [this, hfind2 a3.id ha3lt,
            findAction_self st.actions hidnd a3 (List.mem_of_mem_filter ha3env)]
          rfl
        · rw [hframesmain, hρfr a3]
          show succFrame (F ++ [g]) A2.frame a3.frame
          have : A2.frame = g := rfl
          rw [this]
          exact succFrame_insert_new F a1.frame g a3.frame ha1F hkey2 hkey3 hsucc13

/-- Guarded call sequences: any call issued while the channel still has no
envelope actions must request a frame strictly inside the loop. -/
inductive EnvCallsOK (c : Nat) : State → List EnvCall → Prop where
  | nil (st : State) : EnvCallsOK c st []
  | cons (st : State) (k : EnvCall) (ks : List EnvCall)
      (hguard : Actions.hasActionsCT st.actions c CHANNEL_CC = false →
        0 < k.frame ∧ k.frame < k.last)
      (hrest : ∀ st2, recordEnvelopeAction st c k.frame k.value k.last = some st2 →
        EnvCallsOK c st2 ks) :
      EnvCallsOK c st (k :: ks)

/-- The chain invariant is preserved along any guarded run of
`recordEnvelopePoint` calls. -/
lemma chainInv_run (c : Nat) : ∀ (calls : List EnvCall) (st st2 : State),
    chainInv st c → EnvCallsOK c st calls → envRun c st calls = some st2 →
    chainInv st2 c := by
  intro calls
  induction calls with
  | nil =>
    intro st st2 hInv _ hrun
    rw [envRun] at hrun
    cases hrun
    exact hInv
  | cons k ks ih =>
    intro st st2 hInv hOK hrun
    cases hOK with
    | cons _ _ _ hguard hrest =>
    rw [envRun] at hrun
    cases hstep : recordEnvelopeAction st c k.frame k.value k.last with
    | none => rw [hstep] at hrun; cases hrun
    | some st1 =>
      rw [hstep] at hrun
      have hInv1 : chainInv st1 c := by
        by_cases hhas : Actions.hasActionsCT st.actions c CHANNEL_CC = true
        · rw [recordEnvelopeAction, if_pos hhas] at hstep
          exact chainInv_nonFirst st c k.frame k.value st1 hInv hstep
        · have hfalse : Actions.hasActionsCT st.actions c CHANNEL_CC = false := by
            simpa using hhas
          obtain ⟨h1, h2⟩ := hguard hfalse
          obtain ⟨stx, hstx, hstxinv⟩ :=
            chainInv_first st c k.frame k.value k.last hInv hfalse h1 h2
          rw [hstep] at hstx
          injection hstx with he
          exact he ▸ hstxinv
      exact ih st1 st2 hInv1 (hrest st1 hstep) hrun

/-- The envelope frames survive `updateSiblingsL` unchanged. -/
lemma envFrames_updateSiblings (st : State) (c : Nat) (i p q : Nat) (stx : State)
    (hx : stx.actions = updateSiblingsL st.actions i p q) :
    envFrames stx c = envFrames st c := by
  have : updateSiblingsL st.actions i p q = st.actions.map (fun a =>
      let a := if a.id = i then { a with prevId := p, nextId := q } else a
      let a := if p ≠ 0 ∧ a.id = p then { a with nextId := i } else a
      if q ≠ 0 ∧ a.id = q then { a with prevId := i } else a) := rfl
  rw [envFrames, envActions, hx, this, filter_map_pres]
  · rw [List.map_map]
    apply List.map_congr_left
    intro x _
    show (let a := if x.id = i then { x with prevId := p, nextId := q } else x
          let a := if p ≠ 0 ∧ a.id = p then { a with nextId := i } else a
          if q ≠ 0 ∧ a.id = q then { a with prevId := i } else a).frame = x.frame
    dsimp only
    split_ifs <;> rfl
  · intro x
    dsimp only
    split_ifs <;> rfl
  · intro x
    dsimp only
    split_ifs <;> rfl

/-- A sublist of the committed store induces a sublist of envelope frames. -/
lemma envFrames_sublist (st stx : State) (c : Nat)
    (hsub : stx.actions.Sublist st.actions) :
    (envFrames stx c).Sublist (envFrames st c) := by
  rw [envFrames, envFrames, envActions, envActions]
  exact (hsub.filter _).map _

/-- `deleteEnvelopeAction` preserves distinctness of envelope frames on
every channel. -/
lemma deleteEnvelope_nodup (st : State) (c0 : Nat) (a : Action) (st2 : State) (c : Nat)
    (hnd : (envFrames st c).Nodup)
    (hdel : deleteEnvelopeAction st c0 a = some st2) :
    (envFrames st2 c).Nodup := by
  rw [deleteEnvelopeAction] at hdel
  cases hb : isBoundaryEnvelopeActionR st.actions a with
  | none => rw [hb] at hdel; cases hdel
  | some b =>
    rw [hb] at hdel
    cases b with
    | true =>
      dsimp only at hdel
      injection hdel with he
      subst he
      refine List.Nodup.sublist (envFrames_sublist st _ c ?_) hnd
      exact List.filter_sublist st.actions
    | false =>
      dsimp only at hdel
      cases hp : findAction st.actions a.prevId with
      | none => rw [hp] at hdel; cases hdel
      | some p =>
        rw [hp] at hdel
        cases hn : findAction st.actions a.nextId with
        | none => rw [hn] at hdel; cases hdel
        | some n =>
          rw [hn] at hdel
          dsimp only at hdel
          cases hpp : findAction st.actions p.prevId with
          | none => rw [hpp] at hdel; dsimp only at hdel; cases hdel
          | some pp =>
            rw [hpp] at hdel
            cases hnn : findAction st.actions n.nextId with
            | none => rw [hnn] at hdel; dsimp only at hdel; cases hdel
            | some nn =>
              rw [hnn] at hdel
              dsimp only at hdel
              injection hdel with he
              subst he
              have h1 : envFrames
                  { st with actions := updateSiblingsL st.actions p.id pp.id n.id } c =
                  envFrames st c := envFrames_updateSiblings st c _ _ _ _ rfl
              have h2 : envFrames { st with actions := updateSiblingsL (updateSiblingsL st.actions p.id pp.id n.id) n.id p.id nn.id } c = envFrames st c := by
                rw [← h1]
                exact envFrames_updateSiblings { st with actions := updateSiblingsL st.actions p.id pp.id n.id } c _ _ _ _ rfl
              refine List.Nodup.sublist ?_ (h2 ▸ hnd)
              refine envFrames_sublist _ _ c ?_
              exact List.filter_sublist _

/-- A channel holding no envelope actions on an id-disciplined store
satisfies the chain invariant. -/
lemma chainInv_empty (st : State) (c : Nat)
    (hempty : envActions st c = [])
    (hpos : 0 < st.nextActionId)
    (hids : ∀ x ∈ st.actions, 0 < x.id ∧ x.id < st.nextActionId)
    (hnd : (st.actions.map (·.id)).Nodup) : chainInv st c := by
  refine ⟨?_, ?_, ?_, hpos, hids, hnd, ?_⟩ <;> simp [envFrames, hempty]

/-- C7 counterexample: the very first `recordEnvelopePoint` on an empty
channel with requested frame 0 creates a boundary action and an interior
action both at frame 0 on the same (channel, controller): the resulting
envelope frames are `[0, 0, 100]`, a vertical pair, because
`recordFirstEnvelopeAction` places its boundary points without checking the
requested frame against them. -/
theorem noVerticalPoints_counterexample :
    (recordEnvelopeAction ⟨[], [], 1, [⟨1, false⟩], []⟩ 1 0 64 100).map
        (fun s => envFrames s 1) = some [0, 0, 100] ∧
    ¬ ([0, 0, 100] : List Int).Nodup := by
  exact ⟨by decide, by decide⟩

/-- C7 (amended): starting from any store whose channel holds no envelope
actions yet and whose ids obey the factory discipline, along every guarded
sequence of `recordEnvelopePoint` calls — guarded meaning every call issued
while the channel is still empty requests a frame strictly between 0 and the
loop's last frame — no two envelope actions of the channel ever share a
frame; and `deleteEnvelopeAction` preserves that distinctness on every
channel. The original unguarded claim fails: a first-ever insertion at
frame 0 (or at the loop's last frame) duplicates a boundary frame. -/
theorem noVerticalPoints_amended :
    (∀ (c : Nat) (st st2 : State) (calls : List EnvCall),
      envActions st c = [] →
      0 < st.nextActionId →
      (∀ x ∈ st.actions, 0 < x.id ∧ x.id < st.nextActionId) →
      (st.actions.map (·.id)).Nodup →
      EnvCallsOK c st calls → envRun c st calls = some st2 →
      (envFrames st2 c).Nodup) ∧
    (∀ (st : State) (c0 : Nat) (a : Action) (st2 : State) (c : Nat),
      (envFrames st c).Nodup → deleteEnvelopeAction st c0 a = some st2 →
      (envFrames st2 c).Nodup) := by
  constructor
  · intro c st st2 calls hempty hpos hids hnodup hOK hrun
    exact (chainInv_run c calls st st2
      (chainInv_empty st c hempty hpos hids hnodup) hOK hrun).1
  · intro st c0 a st2 c hnd hdel
    exact deleteEnvelope_nodup st c0 a st2 c hnd hdel

/-- An empty store with one actionless channel: the starting point of the
C7 witness run. -/
def c7Store : State := ⟨[], [], 1, [⟨1, false⟩], []⟩

/-- Two guarded envelope calls: interior frames 20 then 50 in a loop whose
last frame is 100. -/
def c7Calls : List EnvCall := [⟨20, 64, 100⟩, ⟨50, 80, 100⟩]

/-- The store after the first call of the C7 witness run: the bootstrap
triple boundary@0, interior@20, boundary@100 in a circular chain. -/
def c7Mid : State :=
  ⟨[⟨1, 1, 0, MidiEvent.makeFrom3Bytes CHANNEL_CC 0 G_MAX_VELOCITY, 3, 2⟩,
    ⟨2, 1, 20, MidiEvent.makeFrom3Bytes CHANNEL_CC 0 64, 1, 3⟩,
    ⟨3, 1, 100, MidiEvent.makeFrom3Bytes CHANNEL_CC 0 G_MAX_VELOCITY, 2, 1⟩],
   [], 4, [⟨1, true⟩], []⟩

/-- The store after both calls of the C7 witness run: the id-4 node at frame
50 spliced between the interior node and the upper boundary. -/
def c7Final : State :=
  ⟨[⟨1, 1, 0, MidiEvent.makeFrom3Bytes CHANNEL_CC 0 G_MAX_VELOCITY, 3, 2⟩,
    ⟨2, 1, 20, MidiEvent.makeFrom3Bytes CHANNEL_CC 0 64, 1, 4⟩,
    ⟨3, 1, 100, MidiEvent.makeFrom3Bytes CHANNEL_CC 0 G_MAX_VELOCITY, 4, 1⟩,
    ⟨4, 1, 50, MidiEvent.makeFrom3Bytes CHANNEL_CC 0 80, 2, 3⟩],
   [], 5, [⟨1, true⟩], []⟩

/-- The store after deleting the interior node of `envStore`: the two
boundary nodes relinked to each other. -/
def c7DelFinal : State :=
  ⟨[⟨2, 1, 0, MidiEvent.makeFrom3Bytes CHANNEL_CC 0 G_MAX_VELOCITY, 4, 4⟩,
    ⟨4, 1, 100, MidiEvent.makeFrom3Bytes CHANNEL_CC 0 G_MAX_VELOCITY, 2, 2⟩],
   [], 5, [⟨1, true⟩], [SwapType.HARD]⟩

/-- Witness for the amended C7: the two-call guarded run on an empty channel
ends with the pairwise distinct envelope frames `[0, 20, 100, 50]`, and
deleting the interior node of the three-node `envStore` chain leaves the
distinct frames `[0, 100]`. -/
theorem noVerticalPoints_amended_witness :
    (envFrames c7Final 1).Nodup ∧ (envFrames c7DelFinal 1).Nodup := by
  have hOK : EnvCallsOK 1 c7Store c7Calls := by
    refine EnvCallsOK.cons _ _ _ (fun _ => by decide) ?_
    intro stm hm
    have he : recordEnvelopeAction c7Store 1 20 64 100 = some c7Mid := by decide
    rw [he] at hm
    injection hm with hm
    subst hm
    refine EnvCallsOK.cons _ _ _ (fun hf => absurd hf (by decide)) ?_
    intro stn hn
    exact EnvCallsOK.nil stn
  refine ⟨?_, ?_⟩
  · exact noVerticalPoints_amended.1 1 c7Store c7Final c7Calls (by decide) (by decide)
      (by decide) (by decide) hOK (by decide)
  · exact noVerticalPoints_amended.2 envStore 1
      ⟨3, 1, 20, MidiEvent.makeFrom3Bytes CHANNEL_CC 0 64, 2, 4⟩ c7DelFinal 1
      (by decide) (by decide)

end Giada
